import Mathlib

/-!
Minishell: process launcher, command-line graph and builtins.

A shallow embedding of `src/processus.c` and `src/builtins.c`.

Conventions of the embedding.

* A C structure is a Lean structure with the same field names; a function that
  writes through a pointer returns the updated structure next to its C result.
  Structure pointers are passed as values, so the leading null test of each
  function (`if (!proc) return -1;`) has no counterpart.
* A `char*` is an `Option String` (`none` is `NULL`); an array is a list.
* A pointer into `commands` or `flow` of the owning command line is the index
  of the slot (`Option Nat`, `none` is `NULL`).
* The operating system is a record of functions `Libc W` over an arbitrary
  type of worlds `W`: every theorem holds for every behaviour of the system.
* A call that does not come back (`exit`, `_exit`, a successful `execvp`) ends
  the computation with `Outcome.exited` or `Outcome.replaced`.
-/

namespace Minishell

/-! ## Constants and types of `processus.h` -/

/-- Capacity of the descriptor set: `#define MAX_FDS 32` in `processus.c`. -/
def MAX_FDS : Nat := 32

/-- Capacity of the token array: `#define MAX_TOKENS 128` in `processus.c`. -/
def MAX_TOKENS : Nat := 128

/-- Capacities that `processus.h` defines; the header is not among the sources,
so they are parameters of the development. -/
structure Limits where
  MAX_CMDS : Nat
  MAX_ARGS : Nat
  MAX_ENV : Nat
deriving DecidableEq, Repr

/-- A `struct timespec`. -/
structure timespec where
  tv_sec : Int
  tv_nsec : Int
deriving DecidableEq, Repr

/-- The enumeration `control_flow_mode_t`. -/
inductive control_flow_mode_t where
  | UNCONDITIONAL
  | ON_SUCCESS
  | ON_FAILURE
deriving DecidableEq, Repr

/-- The structure `processus_t`; `cf` is the index of the node in `flow`. -/
structure processus_t where
  pid : Int
  argv : List (Option String)
  envp : List (Option String)
  path : Option String
  stdin_fd : Int
  stdout_fd : Int
  stderr_fd : Int
  status : Int
  is_background : Int
  start_time : timespec
  end_time : timespec
  cf : Option Nat
deriving DecidableEq, Repr

/-- The structure `control_flow_t`; `proc` is an index in `commands`, the three
edges are indices in `flow`, and `cmdl` tells whether the back-reference to the
owning command line is set. -/
structure control_flow_t where
  proc : Option Nat
  unconditionnal_next : Option Nat
  on_success_next : Option Nat
  on_failure_next : Option Nat
  cmdl : Bool
deriving DecidableEq, Repr

/-- The structure `command_line_t`; `num_commands` is a count. -/
structure command_line_t where
  command_line : String
  tokens : List (Option String)
  commands : List processus_t
  flow : List control_flow_t
  num_commands : Nat
  opened_descriptors : List Int
deriving DecidableEq, Repr

/-! ## The operating system -/

/-- The library calls the two files make, over a type of worlds `W`. -/
structure Libc (W : Type) where
  /-- Value of `getenv(name)`. -/
  getenv : W → String → Option String
  /-- Result of `chdir(path)`. -/
  chdir : W → String → W × Int
  /-- Result of `setenv(name, value, overwrite)`. -/
  setenv : W → String → String → Int → W × Int
  /-- Result of `unsetenv(name)`. -/
  unsetenv : W → String → W × Int
  /-- Content of the buffer after `getcwd(buffer, size)`, `none` on failure. -/
  getcwd : W → Nat → W × Option String
  /-- Effect of `dprintf(fd, text)`. -/
  dprintf : W → Int → String → W
  /-- Effect of `printf(text)`. -/
  printf : W → String → W
  /-- Effect of `fprintf(stderr, text)`. -/
  fprintf_stderr : W → String → W
  /-- Effect of `perror(text)`. -/
  perror : W → String → W
  /-- Value of `strerror(errno)`. -/
  strerror_errno : W → String
  /-- Result of `clock_gettime(CLOCK_REALTIME, &t)`: the time stored in `t`. -/
  clock_gettime : W → W × timespec
  /-- Return value of `fork()` in the process that is followed. -/
  fork : W → W × Int
  /-- Effect of `signal(SIGINT, SIG_DFL)`. -/
  signal_sigint_dfl : W → W
  /-- Result of `dup2(oldfd, newfd)`. -/
  dup2 : W → Int → Int → W × Int
  /-- Effect of `close(fd)`. -/
  close : W → Int → W
  /-- Call `execvp(file, argv)`: `none` when the image is replaced, the world
  after the failed call otherwise. -/
  execvp : W → Option String → List (Option String) → Option W
  /-- Result of `waitpid(pid, &wstatus, 0)`: return value and `wstatus`. -/
  waitpid : W → Int → W × Int × Int

/-- How a call ends: it returns a value, or the process is terminated with an
exit code, or the process image is replaced. -/
inductive Outcome (W : Type) (α : Type) where
  | returned : W → α → Outcome W α
  | exited : W → Int → Outcome W α
  | replaced : W → Outcome W α
deriving DecidableEq, Repr

/-- The status a process ends with after `exit(code)` or `_exit(code)`: the low
byte of the argument, `code & 0377`. -/
def exit_status (code : Int) : Int := code % 256

/-! ## Macros of `<sys/wait.h>` (glibc) -/

/-- Conversion of an `int` to `signed char`. -/
def to_signed_char (x : Int) : Int :=
  if x % 256 ≥ 128 then x % 256 - 256 else x % 256

/-- The macro `WIFEXITED(s)`: `((s) & 0x7f) == 0`. -/
def WIFEXITED (s : Int) : Bool := s % 128 == 0

/-- The macro `WEXITSTATUS(s)`: `((s) & 0xff00) >> 8`. -/
def WEXITSTATUS (s : Int) : Int := (s / 256) % 256

/-- The macro `WTERMSIG(s)`: `(s) & 0x7f`. -/
def WTERMSIG (s : Int) : Int := s % 128

/-- The macro `WIFSIGNALED(s)`: `((signed char) (((s) & 0x7f) + 1) >> 1) > 0`. -/
def WIFSIGNALED (s : Int) : Bool := decide (to_signed_char (s % 128 + 1) / 2 > 0)

/-! ## `builtins.c` -/

/-- Comparison of two character sequences as `strcmp` does it: the first
difference decides, and a proper prefix is smaller. -/
def strcmp_chars : List Char → List Char → Int
  | [], [] => 0
  | [], _ :: _ => -1
  | _ :: _, [] => 1
  | a :: as, b :: bs =>
    if a = b then strcmp_chars as bs else if a.toNat < b.toNat then -1 else 1

/-- The function `strcmp`, up to the magnitude of a nonzero result. -/
def strcmp (a b : String) : Int :=
  strcmp_chars a.data b.data

/-- The element `argv[i]` of a process. -/
def argv_at (cmd : processus_t) (i : Nat) : Option String :=
  (cmd.argv[i]?).join

/-- The function `is_builtin`. -/
def is_builtin (cmd : processus_t) : Bool :=
  match cmd.path with
  | none => false
  | some path =>
    strcmp path "cd" == 0 ||
    strcmp path "exit" == 0 ||
    strcmp path "export" == 0 ||
    strcmp path "unset" == 0 ||
    strcmp path "pwd" == 0

/-- The function `builtin_cd`. -/
def builtin_cd {W : Type} (os : Libc W) (w : W) (cmd : processus_t) :
    Outcome W (processus_t × Int) :=
  let target : Option String :=
    match argv_at cmd 1 with
    | some a => some a
    | none => os.getenv w "HOME"
  let target : String :=
    match target with
    | some t => t
    | none => "/"
  let r := os.chdir w target
  if r.2 ≠ 0 then
    .returned (os.dprintf r.1 cmd.stderr_fd
      ("cd: " ++ target ++ ": No such file or directory\n")) (cmd, -1)
  else
    .returned r.1 (cmd, 0)

/-- Value of a string of decimal digits. -/
def digits_value (cs : List Char) : Nat :=
  cs.foldl (fun acc c => 10 * acc + (c.toNat - 48)) 0

/-- The function `atoi` on a string of decimal digits (glibc, 64-bit `long`):
`strtol` saturates at `LONG_MAX` and the result is truncated to `int`. -/
def atoi (s : String) : Int :=
  let v : Int := min (digits_value s.data) (2 ^ 63 - 1)
  let r := v % 2 ^ 32
  if r ≥ 2 ^ 31 then r - 2 ^ 32 else r

/-- The function `builtin_exit`. -/
def builtin_exit {W : Type} (os : Libc W) (w : W) (cmd : processus_t) :
    Outcome W (processus_t × Int) :=
  match argv_at cmd 1 with
  | some a =>
    if a.data.any (fun c => c < '0' || c > '9') then
      .returned (os.dprintf w cmd.stderr_fd "exit: numeric argument required\n") (cmd, -1)
    else
      .exited w (atoi a)
  | none => .exited w 0

/-- The function `builtin_export`; writing the terminator over the first `=`
shortens `argv[1]` to the variable name. -/
def builtin_export {W : Type} (os : Libc W) (w : W) (cmd : processus_t) :
    Outcome W (processus_t × Int) :=
  match argv_at cmd 1 with
  | none => .returned (os.dprintf w cmd.stderr_fd "export: expected VAR=VALUE\n") (cmd, -1)
  | some arg =>
    let var := arg.data.takeWhile (fun c => c != '=')
    if var.length = arg.data.length then
      .returned (os.dprintf w cmd.stderr_fd "export: expected VAR=VALUE\n") (cmd, -1)
    else
      let val := arg.data.drop (var.length + 1)
      let cmd1 := { cmd with argv := cmd.argv.set 1 (some (String.mk var)) }
      let r := os.setenv w (String.mk var) (String.mk val) 1
      if r.2 ≠ 0 then
        .returned (os.dprintf r.1 cmd.stderr_fd "export: failed to set variable\n") (cmd1, -1)
      else
        .returned r.1 (cmd1, 0)

/-- The function `builtin_unset`. -/
def builtin_unset {W : Type} (os : Libc W) (w : W) (cmd : processus_t) :
    Outcome W (processus_t × Int) :=
  match argv_at cmd 1 with
  | none => .returned (os.dprintf w cmd.stderr_fd "unset: missing variable name\n") (cmd, -1)
  | some name =>
    let r := os.unsetenv w name
    if r.2 ≠ 0 then
      .returned (os.dprintf r.1 cmd.stderr_fd "unset: error removing variable\n") (cmd, -1)
    else
      .returned r.1 (cmd, 0)

/-- The function `builtin_pwd`. -/
def builtin_pwd {W : Type} (os : Libc W) (w : W) (cmd : processus_t) :
    Outcome W (processus_t × Int) :=
  let r := os.getcwd w 4096
  match r.2 with
  | none => .returned (os.dprintf r.1 cmd.stderr_fd "pwd: error retrieving path\n") (cmd, -1)
  | some buffer => .returned (os.dprintf r.1 cmd.stdout_fd (buffer ++ "\n")) (cmd, 0)

/-- The function `exec_builtin`. -/
def exec_builtin {W : Type} (os : Libc W) (w : W) (cmd : processus_t) :
    Outcome W (processus_t × Int) :=
  match cmd.path with
  | none => .returned w (cmd, -1)
  | some path =>
    if strcmp path "cd" == 0 then builtin_cd os w cmd
    else if strcmp path "exit" == 0 then builtin_exit os w cmd
    else if strcmp path "export" == 0 then builtin_export os w cmd
    else if strcmp path "unset" == 0 then builtin_unset os w cmd
    else if strcmp path "pwd" == 0 then builtin_pwd os w cmd
    else .returned w (cmd, -1)

/-! ## `processus.c` -/

/-- The function `init_processus`: every field is overwritten, so the result
does not depend on the structure passed. -/
def init_processus (L : Limits) : processus_t × Int :=
  ({ pid := 0
     argv := List.replicate L.MAX_ARGS none
     envp := List.replicate L.MAX_ENV none
     path := none
     stdin_fd := 0
     stdout_fd := 1
     stderr_fd := 2
     status := 0
     is_background := 0
     start_time := ⟨0, 0⟩
     end_time := ⟨0, 0⟩
     cf := none }, 0)

/-- One redirection of the child: `fd` is duplicated onto the standard number
`std` when it differs from it; the flag is false when `dup2` failed. -/
def child_redirect {W : Type} (os : Libc W) (w : W) (fd std : Int) (msg : String) :
    W × Bool :=
  if fd ≥ 0 ∧ fd ≠ std then
    let r := os.dup2 w fd std
    if r.2 < 0 then (os.perror r.1 msg, false) else (r.1, true)
  else (w, true)

/-- The loop of the child over `opened_descriptors`, from index `i` for `n`
more rounds. -/
def child_close_loop {W : Type} (os : Libc W) : Nat → Nat → W → List Int → W
  | 0, _, w, _ => w
  | n + 1, i, w, slots =>
    match slots[i]? with
    | some fd =>
      if fd ≥ 0 ∧ fd ≠ 0 ∧ fd ≠ 1 ∧ fd ≠ 2 then
        child_close_loop os n (i + 1) (os.close w fd) slots
      else child_close_loop os n (i + 1) w slots
    | none => child_close_loop os n (i + 1) w slots

/-- The child branch of `launch_processus` (`pid == 0`); `tracked` is
`proc->cf->cmdl->opened_descriptors` when both pointers are set. -/
def launch_child {W : Type} (os : Libc W) (w : W) (tracked : Option (List Int))
    (proc : processus_t) : Outcome W (processus_t × Int) :=
  let w := os.signal_sigint_dfl w
  let r0 := child_redirect os w proc.stdin_fd 0 "dup2 stdin"
  if !r0.2 then .exited r0.1 127 else
  let r1 := child_redirect os r0.1 proc.stdout_fd 1 "dup2 stdout"
  if !r1.2 then .exited r1.1 127 else
  let r2 := child_redirect os r1.1 proc.stderr_fd 2 "dup2 stderr"
  if !r2.2 then .exited r2.1 127 else
  let w :=
    match tracked with
    | some slots => child_close_loop os MAX_FDS 0 r2.1 slots
    | none => r2.1
  if is_builtin proc then
    match exec_builtin os w proc with
    | .returned w1 res => .exited w1 (if res.2 = 0 then 0 else 1)
    | .exited w1 code => .exited w1 code
    | .replaced w1 => .replaced w1
  else
    match os.execvp w proc.path proc.argv with
    | none => .replaced w
    | some w1 =>
      let name := match proc.path with
        | some p => p
        | none => "unknown"
      .exited (os.fprintf_stderr w1 (name ++ ": " ++ os.strerror_errno w1 ++ "\n")) 127

/-- The function `launch_processus`. -/
def launch_processus {W : Type} (os : Libc W) (w : W) (tracked : Option (List Int))
    (proc : processus_t) : Outcome W (processus_t × Int) :=
  if is_builtin proc ∧ proc.is_background = 0 then
    match exec_builtin os w proc with
    | .returned w1 res =>
      .returned w1 ({ res.1 with status := if res.2 = 0 then 0 else 1 },
        if res.2 = 0 then 0 else -1)
    | .exited w1 code => .exited w1 code
    | .replaced w1 => .replaced w1
  else
    let t0 := os.clock_gettime w
    let proc := { proc with start_time := t0.2 }
    let f := os.fork t0.1
    let pid := f.2
    if pid < 0 then
      .returned (os.perror f.1 "fork") (proc, -1)
    else if pid = 0 then
      launch_child os f.1 tracked proc
    else
      let proc := { proc with pid := pid }
      if proc.is_background ≠ 0 then
        .returned (os.printf f.1 ("[bg] pid " ++ toString pid ++ "\n"))
          ({ proc with status := 0 }, 0)
      else
        let wt := os.waitpid f.1 pid
        if wt.2.1 < 0 then
          .returned (os.perror wt.1 "waitpid") (proc, -1)
        else
          let wstatus := wt.2.2
          let proc := { proc with status := wstatus }
          let t1 := os.clock_gettime wt.1
          let proc := { proc with end_time := t1.2 }
          if WIFEXITED wstatus then
            let exitcode := WEXITSTATUS wstatus
            .returned t1.1 (proc, if exitcode = 0 then 0 else exitcode)
          else if WIFSIGNALED wstatus then
            .returned t1.1 (proc, 128 + WTERMSIG wstatus)
          else
            .returned t1.1 (proc, -1)

/-- The function `init_control_flow`: every field is overwritten, so the result
does not depend on the structure passed. -/
def init_control_flow : control_flow_t × Int :=
  ({ proc := none
     unconditionnal_next := none
     on_success_next := none
     on_failure_next := none
     cmdl := false }, 0)

/-- Assignment through `&array[i]`: the slot `i` becomes `f` of its content. -/
def update_at {α : Type} (l : List α) (i : Nat) (f : α → α) : List α :=
  match l[i]? with
  | some a => l.set i (f a)
  | none => l

/-- The edge of the previous node that `add_processus` writes for a mode. -/
def set_edge (mode : control_flow_mode_t) (cf : Option Nat) (prev : control_flow_t) :
    control_flow_t :=
  match mode with
  | .UNCONDITIONAL => { prev with unconditionnal_next := cf }
  | .ON_SUCCESS => { prev with on_success_next := cf }
  | .ON_FAILURE => { prev with on_failure_next := cf }

/-- The function `add_processus`: the command line after the call and the
returned pointer, as the index of the process in `commands`. -/
def add_processus (L : Limits) (cmdl : command_line_t) (mode : control_flow_mode_t) :
    command_line_t × Option Nat :=
  if cmdl.num_commands ≥ L.MAX_CMDS then (cmdl, none) else
  let idx := cmdl.num_commands
  let commands := update_at cmdl.commands idx (fun _ => (init_processus L).1)
  let flow := update_at cmdl.flow idx (fun _ => init_control_flow.1)
  let flow := update_at flow idx (fun cf => { cf with proc := some idx, cmdl := true })
  let flow := if idx > 0 then update_at flow (idx - 1) (set_edge mode (some idx)) else flow
  let commands := update_at commands idx (fun proc => { proc with cf := some idx })
  ({ cmdl with num_commands := idx + 1, commands := commands, flow := flow }, some idx)

/-- The function `next_processus`. -/
def next_processus (L : Limits) (cmdl : command_line_t) : Option Nat :=
  if cmdl.num_commands ≥ L.MAX_CMDS then none else some cmdl.num_commands

/-- The loop of `add_fd`, from index `i` for `n` more rounds: the array after
the insertion, or `none` when the loop ends without one. -/
def add_fd_loop (fd : Int) : Nat → Nat → List Int → Option (List Int)
  | 0, _, _ => none
  | n + 1, i, slots =>
    if slots[i]? = some (-1) then some (slots.set i fd)
    else add_fd_loop fd n (i + 1) slots

/-- The function `add_fd`. -/
def add_fd (cmdl : command_line_t) (fd : Int) : command_line_t × Int :=
  if fd < 0 then (cmdl, -1) else
  match add_fd_loop fd MAX_FDS 0 cmdl.opened_descriptors with
  | some slots => ({ cmdl with opened_descriptors := slots }, 0)
  | none => (cmdl, -1)

/-- The loop of `close_fds`, from index `i` for `n` more rounds. -/
def close_fds_loop {W : Type} (os : Libc W) : Nat → Nat → W → List Int → W × List Int
  | 0, _, w, slots => (w, slots)
  | n + 1, i, w, slots =>
    match slots[i]? with
    | some fd =>
      if fd ≥ 0 then close_fds_loop os n (i + 1) (os.close w fd) (slots.set i (-1))
      else close_fds_loop os n (i + 1) w slots
    | none => close_fds_loop os n (i + 1) w slots

/-- The function `close_fds`. -/
def close_fds {W : Type} (os : Libc W) (w : W) (cmdl : command_line_t) :
    W × command_line_t × Int :=
  let r := close_fds_loop os MAX_FDS 0 w cmdl.opened_descriptors
  (r.1, { cmdl with opened_descriptors := r.2 }, 0)

/-- The function `init_command_line`: every field is overwritten, so the result
does not depend on the structure passed. -/
def init_command_line (L : Limits) : command_line_t × Int :=
  ({ command_line := ""
     tokens := List.replicate MAX_TOKENS none
     commands := List.replicate L.MAX_CMDS (init_processus L).1
     flow := List.replicate L.MAX_CMDS { init_control_flow.1 with cmdl := true }
     num_commands := 0
     opened_descriptors := List.replicate MAX_FDS (-1) }, 0)

/-- The array `proc->cf->cmdl->opened_descriptors` as `launch_processus`
reaches it from a process of the command line, when `proc->cf` and
`proc->cf->cmdl` are both set. -/
def tracked_of (cmdl : command_line_t) (proc : processus_t) : Option (List Int) :=
  match proc.cf with
  | none => none
  | some j =>
    match cmdl.flow[j]? with
    | some node => if node.cmdl then some cmdl.opened_descriptors else none
    | none => none

/-- The choice of the next node in `launch_command_line`, from the node just
run and the raw status of its process. -/
def next_node (cf : control_flow_t) (status : Int) : Option Nat :=
  let success : Bool := if WIFEXITED status then WEXITSTATUS status == 0 else false
  if success ∧ cf.on_success_next.isSome then cf.on_success_next
  else if !success ∧ cf.on_failure_next.isSome then cf.on_failure_next
  else cf.unconditionnal_next

/-- The loop of `launch_command_line` from the node `cf`, with a bound on the
number of rounds. The result is `none` when the bound is reached, or when a
reference leaves the arrays. When the loop ends, the result holds the command
line, the value returned from inside the loop if any, and the nodes whose
process was launched, in order (`seen` is a record kept by the embedding). -/
def launch_nodes {W : Type} (os : Libc W) :
    Nat → W → command_line_t → Option Nat → List Nat →
    Option (Outcome W (command_line_t × Option Int × List Nat))
  | 0, _, _, _, _ => none
  | fuel + 1, w, cmdl, cf, seen =>
    match cf with
    | none => some (.returned w (cmdl, none, seen))
    | some j =>
      match cmdl.flow[j]? with
      | none => none
      | some node =>
        match node.proc with
        | none => some (.returned w (cmdl, none, seen))
        | some p =>
          match cmdl.commands[p]? with
          | none => none
          | some proc =>
            match launch_processus os w (tracked_of cmdl proc) proc with
            | .returned w1 res =>
              let cmdl1 := { cmdl with commands := cmdl.commands.set p res.1 }
              if res.2 < 0 then some (.returned w1 (cmdl1, some res.2, seen ++ [j]))
              else launch_nodes os fuel w1 cmdl1 (next_node node res.1.status) (seen ++ [j])
            | .exited w1 code => some (.exited w1 code)
            | .replaced w1 => some (.replaced w1)

/-- The function `launch_command_line`, with a bound on the rounds of its loop:
the command line, the returned value and the nodes launched. -/
def launch_command_line {W : Type} (os : Libc W) (fuel : Nat) (w : W)
    (cmdl : command_line_t) : Option (Outcome W (command_line_t × Int × List Nat)) :=
  if cmdl.num_commands = 0 then some (.returned w (cmdl, 0, [])) else
  match launch_nodes os fuel w cmdl (some 0) [] with
  | none => none
  | some (.returned w1 (cmdl1, some ret, seen)) => some (.returned w1 (cmdl1, ret, seen))
  | some (.returned w1 (cmdl1, none, seen)) =>
    let r := close_fds os w1 cmdl1
    some (.returned r.1 (r.2.1, 0, seen))
  | some (.exited w1 code) => some (.exited w1 code)
  | some (.replaced w1) => some (.replaced w1)

/-! ## A simulated system

A small concrete instance of `Libc`, used to run the definitions on examples. -/

/-- State of the simulated system. -/
structure SimWorld where
  /-- Current working directory. -/
  cwd : String
  /-- Environment variables. -/
  env : List (String × String)
  /-- Directories that `chdir` can enter. -/
  dirs : List String
  /-- Descriptors passed to `close`, oldest first. -/
  closed : List Int
  /-- Texts written, with the descriptor written to, oldest first. -/
  written : List (Int × String)
  /-- Raw wait statuses of the children to come. -/
  statuses : List Int
  /-- Number of children created. -/
  forked : Nat
deriving DecidableEq, Repr

/-- The simulated system: `fork` returns in the parent, a child ends with the
next status of the list, `chdir` succeeds on the listed directories. -/
def simLibc : Libc SimWorld where
  getenv w name := w.env.lookup name
  chdir w path := if path ∈ w.dirs then ({ w with cwd := path }, 0) else (w, -1)
  setenv w name value _ :=
    if name = "" then (w, -1)
    else ({ w with env := (name, value) :: w.env.filter (fun e => e.1 != name) }, 0)
  unsetenv w name :=
    if name = "" then (w, -1)
    else ({ w with env := w.env.filter (fun e => e.1 != name) }, 0)
  getcwd w size := (w, if w.cwd.length < size then some w.cwd else none)
  dprintf w fd text := { w with written := w.written ++ [(fd, text)] }
  printf w text := { w with written := w.written ++ [(1, text)] }
  fprintf_stderr w text := { w with written := w.written ++ [(2, text)] }
  perror w text := { w with written := w.written ++ [(2, text ++ ": error\n")] }
  strerror_errno _ := "No such file or directory"
  clock_gettime w := (w, ⟨0, 0⟩)
  fork w := ({ w with forked := w.forked + 1 }, 100 + w.forked)
  signal_sigint_dfl w := w
  dup2 w _ newfd := (w, newfd)
  close w fd := { w with closed := w.closed ++ [fd] }
  execvp _ _ _ := none
  waitpid w pid :=
    match w.statuses with
    | s :: rest => ({ w with statuses := rest }, pid, s)
    | [] => (w, -1, 0)

/-- A simulated system at rest, whose children will end with `statuses`. -/
def simWorld (statuses : List Int) : SimWorld :=
  { cwd := "/", env := [], dirs := ["/", "/tmp"], closed := [], written := [],
    statuses := statuses, forked := 0 }

/-- Limits used in the examples. -/
def simLimits : Limits := { MAX_CMDS := 3, MAX_ARGS := 4, MAX_ENV := 2 }

/-- The example line `cd /nonexistent || echo failed`, with descriptor 5 tracked:
two appended processes, the second one on the failure edge of the first. -/
def cd_or_echo : command_line_t :=
  let c0 := (init_command_line simLimits).1
  let c1 := (add_processus simLimits c0 .UNCONDITIONAL).1
  let c2 := (add_processus simLimits c1 .ON_FAILURE).1
  let c3 := (add_fd c2 5).1
  let commands := update_at c3.commands 0 (fun proc =>
    { proc with path := some "cd", argv := [some "cd", some "/nonexistent", none, none] })
  let commands := update_at commands 1 (fun proc =>
    { proc with path := some "echo", argv := [some "echo", some "failed", none, none] })
  { c3 with commands := commands }

/-- The first process of `cd_or_echo`. -/
def cd_missing : processus_t :=
  { (init_processus simLimits).1 with
      path := some "cd", argv := [some "cd", some "/nonexistent", none, none], cf := some 0 }

/-- The example line `false && echo ok`: two appended processes, the second
one on the success edge of the first. -/
def false_and_echo : command_line_t :=
  let c0 := (init_command_line simLimits).1
  let c1 := (add_processus simLimits c0 .UNCONDITIONAL).1
  let c2 := (add_processus simLimits c1 .ON_SUCCESS).1
  let commands := update_at c2.commands 0 (fun proc =>
    { proc with path := some "false", argv := [some "false", none, none, none] })
  let commands := update_at commands 1 (fun proc =>
    { proc with path := some "echo", argv := [some "echo", some "ok", none, none] })
  { c2 with commands := commands }

/-- The first process of `false_and_echo`. -/
def false_proc : processus_t :=
  { (init_processus simLimits).1 with
      path := some "false", argv := [some "false", none, none, none], cf := some 0 }

/-- Successive calls of `add_processus`, one per mode of the list: the final
command line and the result of each call. -/
def add_each (L : Limits) : command_line_t → List control_flow_mode_t →
    command_line_t × List (Option Nat)
  | cmdl, [] => (cmdl, [])
  | cmdl, mode :: modes =>
    let r := add_processus L cmdl mode
    let rest := add_each L r.1 modes
    (rest.1, r.2 :: rest.2)

/-- The node that `add_processus` leaves in slot `k` of `flow`. -/
def fresh_node (k : Nat) : control_flow_t :=
  { proc := some k, unconditionnal_next := none, on_success_next := none,
    on_failure_next := none, cmdl := true }

/-- Every populated node refers to the process of its own slot. -/
def proc_aliases (cmdl : command_line_t) : Prop :=
  ∀ i, i < cmdl.num_commands → ∃ node, cmdl.flow[i]? = some node ∧ node.proc = some i

/-- Successive registrations with `add_fd`, one per descriptor of the list. -/
def register_all : command_line_t → List Int → command_line_t
  | cmdl, [] => cmdl
  | cmdl, fd :: fds => register_all (add_fd cmdl fd).1 fds

/-- The example set where descriptor 3 is registered twice. -/
def twice_three : command_line_t :=
  register_all (init_command_line simLimits).1 [3, 3]

/-- The example set filled by `MAX_FDS` registrations, of descriptors 3 to 34. -/
def full_set : command_line_t :=
  register_all (init_command_line simLimits).1 ((List.range MAX_FDS).map (fun i => (i : Int) + 3))

/-- A call on the descriptor set: a registration or the closing of all. -/
inductive fd_call where
  | add (fd : Int)
  | close_all
deriving DecidableEq, Repr

/-- The calls of the list run in order with `add_fd` and `close_fds`. -/
def run_fd_calls {W : Type} (os : Libc W) : W → command_line_t → List fd_call →
    W × command_line_t
  | w, cmdl, [] => (w, cmdl)
  | w, cmdl, .add fd :: calls => run_fd_calls os w (add_fd cmdl fd).1 calls
  | w, cmdl, .close_all :: calls =>
    run_fd_calls os (close_fds os w cmdl).1 (close_fds os w cmdl).2.1 calls

/-- No call of the list registers a number that the set holds at that moment:
a call of `add_fd` that succeeds, and so registers its descriptor, is made with
a number held by no slot. A call that fails registers nothing and is free. -/
def registers_fresh {W : Type} (os : Libc W) : W → command_line_t → List fd_call → Prop
  | _, _, [] => True
  | w, cmdl, .add fd :: calls =>
    ((add_fd cmdl fd).2 = 0 → fd ∉ cmdl.opened_descriptors) ∧
    registers_fresh os w (add_fd cmdl fd).1 calls
  | w, cmdl, .close_all :: calls =>
    registers_fresh os (close_fds os w cmdl).1 (close_fds os w cmdl).2.1 calls

/-- No two occupied slots hold the same descriptor number. -/
def no_duplicate (slots : List Int) : Prop :=
  ∀ (i j : Nat) (fd : Int), 0 ≤ fd → slots[i]? = some fd → slots[j]? = some fd → i = j

/-- The descriptors held by the occupied slots, in slot order. -/
def occupied (slots : List Int) : List Int :=
  slots.filter (fun fd => decide (0 ≤ fd))

/-- The content of a slot after `close_fds`. -/
def cleared (fd : Int) : Int :=
  if 0 ≤ fd then -1 else fd

instance registers_fresh_decidable {W : Type} (os : Libc W) :
    ∀ (calls : List fd_call) (w : W) (cmdl : command_line_t),
      Decidable (registers_fresh os w cmdl calls)
  | [], _, _ => isTrue trivial
  | .add fd :: calls, w, cmdl =>
    @instDecidableAnd _ _ _ (registers_fresh_decidable os calls w (add_fd cmdl fd).1)
  | .close_all :: calls, w, cmdl =>
    registers_fresh_decidable os calls (close_fds os w cmdl).1 (close_fds os w cmdl).2.1

/-- An edge of node `j` is absent or leads to a later node of the array. -/
def edge_forward (len j : Nat) (edge : Option Nat) : Bool :=
  match edge with
  | none => true
  | some k => decide (j < k) && decide (k < len)

/-- Every node refers to a process of the array, if to any, and each of its
edges is absent or leads to a later node of the array. -/
def forward_linked (cmdl : command_line_t) : Bool :=
  cmdl.flow.enum.all (fun x =>
    (match x.2.proc with
      | none => true
      | some p => decide (p < cmdl.commands.length)) &&
    edge_forward cmdl.flow.length x.1 x.2.unconditionnal_next &&
    edge_forward cmdl.flow.length x.1 x.2.on_success_next &&
    edge_forward cmdl.flow.length x.1 x.2.on_failure_next)

/-- The example line `false && echo ok` with descriptor 5 tracked. -/
def false_and_echo_fd : command_line_t :=
  (add_fd false_and_echo 5).1

/-- The example process `exit arg`. -/
def exit_proc (arg : Option String) : processus_t :=
  { (init_processus simLimits).1 with
      path := some "exit", argv := [some "exit", arg, none, none] }

/-- The three outgoing edges of a node: unconditional, on-success, on-failure. -/
def edges_of (node : control_flow_t) : List (Option Nat) :=
  [node.unconditionnal_next, node.on_success_next, node.on_failure_next]

/-- Shape of the node in slot `j` of a line of `num` appended processes: a
populated node refers to the process of its slot; a node followed by another
populated node has exactly one edge, to the next slot; any other node has no
edge. -/
def chain_shape (node : control_flow_t) (j num : Nat) : Prop :=
  (j < num → node.proc = some j) ∧
  (j + 1 < num →
    edges_of node = [some (j + 1), none, none] ∨
    edges_of node = [none, some (j + 1), none] ∨
    edges_of node = [none, none, some (j + 1)]) ∧
  (num ≤ j + 1 → edges_of node = [none, none, none])

/-- A command line whose populated slots exist in both arrays and whose nodes
all have the shape `chain_shape`. -/
def chain_line (cmdl : command_line_t) : Prop :=
  cmdl.num_commands ≤ cmdl.commands.length ∧
  cmdl.num_commands ≤ cmdl.flow.length ∧
  ∀ (j : Nat) (node : control_flow_t), cmdl.flow[j]? = some node →
    chain_shape node j cmdl.num_commands

/-! ## Specification-level notions -/

/-- A raw wait status that is a clean exit with code 0, in the encoding of
`waitpid`: the low seven bits are zero and so is the next byte. -/
def clean_exit_zero (status : Int) : Prop :=
  status % 128 = 0 ∧ (status / 256) % 256 = 0

instance (status : Int) : Decidable (clean_exit_zero status) := by
  unfold clean_exit_zero; infer_instance

/-- The next node as the specification words it: the on-success edge if the
process succeeded and that edge is present; otherwise the on-failure edge if
the process failed and that edge is present; otherwise the unconditional edge. -/
def selected_edge (node : control_flow_t) (status : Int) : Option Nat :=
  if clean_exit_zero status ∧ node.on_success_next ≠ none then node.on_success_next
  else if ¬ clean_exit_zero status ∧ node.on_failure_next ≠ none then node.on_failure_next
  else node.unconditionnal_next

/-! ## Lemmas -/

theorem strcmp_chars_eq_zero (a : List Char) : ∀ b, strcmp_chars a b = 0 ↔ a = b := by
  induction a with
  | nil => intro b; cases b <;> simp [strcmp_chars]
  | cons x xs ih =>
    intro b
    cases b with
    | nil => simp [strcmp_chars]
    | cons y ys =>
      by_cases hxy : x = y
      · simp [strcmp_chars, hxy, ih]
      · simp only [strcmp_chars, hxy, if_false, List.cons.injEq, false_and, iff_false]
        split <;> decide

theorem strcmp_eq_zero (a b : String) : strcmp a b = 0 ↔ a = b := by
  unfold strcmp
  rw [strcmp_chars_eq_zero]
  constructor
  · intro h; exact String.ext h
  · intro h; rw [h]

theorem is_builtin_iff (cmd : processus_t) :
    is_builtin cmd = true ↔
      ∃ s, cmd.path = some s ∧
        (s = "cd" ∨ s = "exit" ∨ s = "export" ∨ s = "unset" ∨ s = "pwd") := by
  unfold is_builtin
  cases h : cmd.path with
  | none => simp
  | some s => simp [strcmp_eq_zero, or_assoc]

theorem next_node_eq_selected_edge (node : control_flow_t) (status : Int) :
    next_node node status = selected_edge node status := by
  unfold next_node selected_edge clean_exit_zero WIFEXITED WEXITSTATUS
  by_cases h1 : status % 128 = 0 <;> by_cases h2 : status / 256 % 256 = 0 <;>
    cases hs : node.on_success_next <;> cases hf : node.on_failure_next <;>
    simp [h1, h2]

theorem length_update_at {α : Type} (l : List α) (i : Nat) (f : α → α) :
    (update_at l i f).length = l.length := by
  unfold update_at
  split <;> simp

theorem getElem?_update_at {α : Type} (l : List α) (i j : Nat) (f : α → α) :
    (update_at l i f)[j]? = if i = j then (l[j]?).map f else l[j]? := by
  unfold update_at
  split
  · rename_i a h
    rw [List.getElem?_set]
    by_cases hij : i = j
    · subst hij
      have hlt : i < l.length := (List.getElem?_eq_some.mp h).1
      simp [h, hlt]
    · simp [hij]
  · rename_i h
    by_cases hij : i = j
    · subst hij; simp [h]
    · simp [hij]

theorem add_processus_full (L : Limits) (cmdl : command_line_t) (m : control_flow_mode_t)
    (hk : L.MAX_CMDS ≤ cmdl.num_commands) : add_processus L cmdl m = (cmdl, none) := by
  simp [add_processus, hk]

theorem add_processus_result (L : Limits) (cmdl : command_line_t) (m : control_flow_mode_t)
    (hk : cmdl.num_commands < L.MAX_CMDS) :
    (add_processus L cmdl m).2 = some cmdl.num_commands ∧
    (add_processus L cmdl m).1.num_commands = cmdl.num_commands + 1 ∧
    (add_processus L cmdl m).1.opened_descriptors = cmdl.opened_descriptors ∧
    (add_processus L cmdl m).1.tokens = cmdl.tokens ∧
    (add_processus L cmdl m).1.command_line = cmdl.command_line ∧
    (add_processus L cmdl m).1.commands.length = cmdl.commands.length ∧
    (add_processus L cmdl m).1.flow.length = cmdl.flow.length := by
  have h : ¬ L.MAX_CMDS ≤ cmdl.num_commands := by omega
  simp only [add_processus, ge_iff_le, h, if_false]
  refine ⟨trivial, trivial, trivial, trivial, trivial, ?_, ?_⟩
  · simp [length_update_at]
  · split <;> simp [length_update_at]

theorem add_processus_commands (L : Limits) (cmdl : command_line_t) (m : control_flow_mode_t)
    (hk : cmdl.num_commands < L.MAX_CMDS) (i : Nat) :
    (add_processus L cmdl m).1.commands[i]? =
      if i = cmdl.num_commands then
        (cmdl.commands[i]?).map
          (fun _ => { (init_processus L).1 with cf := some cmdl.num_commands })
      else cmdl.commands[i]? := by
  have h : ¬ L.MAX_CMDS ≤ cmdl.num_commands := by omega
  simp only [add_processus, ge_iff_le, h, if_false, getElem?_update_at]
  by_cases hi : i = cmdl.num_commands
  · subst hi
    cases cmdl.commands[cmdl.num_commands]? <;> simp
  · have hi2 : ¬ cmdl.num_commands = i := fun e => hi e.symm
    simp [hi, hi2]

theorem add_processus_flow (L : Limits) (cmdl : command_line_t) (m : control_flow_mode_t)
    (hk : cmdl.num_commands < L.MAX_CMDS) (i : Nat) :
    (add_processus L cmdl m).1.flow[i]? =
      if i = cmdl.num_commands then
        (cmdl.flow[i]?).map (fun _ => fresh_node cmdl.num_commands)
      else if i + 1 = cmdl.num_commands then
        (cmdl.flow[i]?).map (set_edge m (some cmdl.num_commands))
      else cmdl.flow[i]? := by
  have h : ¬ L.MAX_CMDS ≤ cmdl.num_commands := by omega
  simp only [add_processus, ge_iff_le, h, if_false]
  by_cases hi : i = cmdl.num_commands
  · subst hi
    by_cases h0 : cmdl.num_commands > 0
    · have hne : ¬ cmdl.num_commands - 1 = cmdl.num_commands := by omega
      simp only [h0, if_true, getElem?_update_at, hne, if_false]
      cases cmdl.flow[cmdl.num_commands]? <;> simp [fresh_node, init_control_flow]
    · simp only [h0, if_false, getElem?_update_at, if_true]
      cases cmdl.flow[cmdl.num_commands]? <;> simp [fresh_node, init_control_flow]
  · have hi2 : ¬ cmdl.num_commands = i := fun e => hi e.symm
    by_cases hp : i + 1 = cmdl.num_commands
    · have h0 : cmdl.num_commands > 0 := by omega
      have he : cmdl.num_commands - 1 = i := by omega
      simp only [h0, if_true, getElem?_update_at, he, hi2, if_false, hi, hp]
    · by_cases h0 : cmdl.num_commands > 0
      · have hne : ¬ cmdl.num_commands - 1 = i := by omega
        simp only [h0, if_true, getElem?_update_at, hne, hi2, if_false, hi, hp]
      · simp only [h0, if_false, getElem?_update_at, hi2, hi, hp]

theorem add_each_results (L : Limits) (modes : List control_flow_mode_t) :
    ∀ cmdl : command_line_t, cmdl.num_commands + modes.length ≤ L.MAX_CMDS →
      (add_each L cmdl modes).2 = (List.range' cmdl.num_commands modes.length).map some ∧
      (add_each L cmdl modes).1.num_commands = cmdl.num_commands + modes.length := by
  induction modes with
  | nil => intro cmdl _; simp [add_each]
  | cons m ms ih =>
    intro cmdl h
    simp only [List.length_cons] at h
    have hk : cmdl.num_commands < L.MAX_CMDS := by omega
    obtain ⟨h2, hn, -⟩ := add_processus_result L cmdl m hk
    have ih2 := ih (add_processus L cmdl m).1 (by rw [hn]; omega)
    simp only [add_each, List.length_cons, List.range'_succ, List.map_cons]
    rw [ih2.1, ih2.2, hn, h2]
    exact ⟨rfl, by omega⟩

theorem add_each_full (L : Limits) (more : List control_flow_mode_t) :
    ∀ cmdl : command_line_t, L.MAX_CMDS ≤ cmdl.num_commands →
      add_each L cmdl more = (cmdl, List.replicate more.length none) := by
  induction more with
  | nil => intro cmdl _; simp [add_each]
  | cons m ms ih =>
    intro cmdl h
    simp only [add_each, add_processus_full L cmdl m h, ih cmdl h, List.length_cons,
      List.replicate_succ]

theorem proc_aliases_add_processus (L : Limits) (cmdl : command_line_t)
    (m : control_flow_mode_t) (hf : cmdl.flow.length = L.MAX_CMDS)
    (ha : proc_aliases cmdl) : proc_aliases (add_processus L cmdl m).1 := by
  by_cases hk : cmdl.num_commands < L.MAX_CMDS
  · intro i hi
    rw [(add_processus_result L cmdl m hk).2.1] at hi
    rw [add_processus_flow L cmdl m hk i]
    by_cases hik : i = cmdl.num_commands
    · have hlt : i < cmdl.flow.length := by omega
      obtain ⟨node, hnode⟩ : ∃ node, cmdl.flow[i]? = some node :=
        ⟨cmdl.flow[i], List.getElem?_eq_getElem hlt⟩
      refine ⟨fresh_node cmdl.num_commands, ?_, ?_⟩
      · rw [if_pos hik, hnode]; rfl
      · rw [hik]; rfl
    · obtain ⟨node, hnode, hproc⟩ := ha i (by omega)
      by_cases hp : i + 1 = cmdl.num_commands
      · refine ⟨set_edge m (some cmdl.num_commands) node, ?_, ?_⟩
        · rw [if_neg hik, if_pos hp, hnode]; rfl
        · cases m <;> exact hproc
      · exact ⟨node, by rw [if_neg hik, if_neg hp, hnode], hproc⟩
  · rw [add_processus_full L cmdl m (by omega)]
    exact ha

theorem proc_aliases_add_each (L : Limits) (modes : List control_flow_mode_t) :
    ∀ cmdl : command_line_t, cmdl.flow.length = L.MAX_CMDS → proc_aliases cmdl →
      proc_aliases (add_each L cmdl modes).1 := by
  induction modes with
  | nil => intro cmdl _ ha; exact ha
  | cons m ms ih =>
    intro cmdl hf ha
    simp only [add_each]
    apply ih
    · by_cases hk : cmdl.num_commands < L.MAX_CMDS
      · rw [(add_processus_result L cmdl m hk).2.2.2.2.2.2]; exact hf
      · rw [add_processus_full L cmdl m (by omega)]; exact hf
    · exact proc_aliases_add_processus L cmdl m hf ha

theorem add_fd_loop_spec (fd : Int) (slots : List Int) :
    ∀ n i, (∀ j, j < i → slots[j]? ≠ some (-1)) →
      match add_fd_loop fd n i slots with
      | some s => ∃ k, k < i + n ∧ slots[k]? = some (-1) ∧
          (∀ j, j < k → slots[j]? ≠ some (-1)) ∧ s = slots.set k fd
      | none => ∀ j, j < i + n → slots[j]? ≠ some (-1) := by
  intro n
  induction n with
  | zero => intro i h; simpa [add_fd_loop] using h
  | succ n ih =>
    intro i h
    unfold add_fd_loop
    by_cases hi : slots[i]? = some (-1)
    · rw [if_pos hi]
      exact ⟨i, by omega, hi, h, rfl⟩
    · rw [if_neg hi]
      have h2 : ∀ j, j < i + 1 → slots[j]? ≠ some (-1) := by
        intro j hj
        by_cases hji : j = i
        · rw [hji]; exact hi
        · exact h j (by omega)
      have := ih (i + 1) h2
      have e : i + 1 + n = i + (n + 1) := by omega
      rw [e] at this
      exact this

theorem add_fd_cases (cmdl : command_line_t) (fd : Int) :
    (add_fd cmdl fd = (cmdl, -1) ∧
      (fd < 0 ∨ ∀ j : Nat, j < MAX_FDS → cmdl.opened_descriptors[j]? ≠ some (-1))) ∨
    (0 ≤ fd ∧ ∃ k : Nat, cmdl.opened_descriptors[k]? = some (-1) ∧
      (∀ j : Nat, j < k → cmdl.opened_descriptors[j]? ≠ some (-1)) ∧
      add_fd cmdl fd =
        ({ cmdl with opened_descriptors := cmdl.opened_descriptors.set k fd }, 0)) := by
  have hloop := add_fd_loop_spec fd cmdl.opened_descriptors MAX_FDS 0
    (fun j hj => absurd hj (Nat.not_lt_zero j))
  by_cases hfd : fd < 0
  · left
    exact ⟨by simp [add_fd, hfd], Or.inl hfd⟩
  · cases hr : add_fd_loop fd MAX_FDS 0 cmdl.opened_descriptors with
    | none =>
      rw [hr] at hloop
      left
      refine ⟨by simp [add_fd, hfd, hr], Or.inr ?_⟩
      intro j hj
      exact hloop j (by omega)
    | some s =>
      rw [hr] at hloop
      obtain ⟨k, -, hempty, hfirst, hs⟩ := hloop
      right
      exact ⟨by omega, k, hempty, hfirst, by simp [add_fd, hfd, hr, hs]⟩

theorem close_fds_loop_spec {W : Type} (os : Libc W) (suf : List Int) :
    ∀ (pre : List Int) (w : W),
      close_fds_loop os suf.length pre.length w (pre ++ suf) =
        ((occupied suf).foldl os.close w, pre ++ suf.map cleared) := by
  induction suf with
  | nil => intro pre w; simp [close_fds_loop, occupied]
  | cons x xs ih =>
    intro pre w
    have hget : (pre ++ x :: xs)[pre.length]? = some x := by
      rw [List.getElem?_append_right (Nat.le_refl _)]; simp
    simp only [List.length_cons, close_fds_loop, hget]
    by_cases hx : 0 ≤ x
    · have hset : (pre ++ x :: xs).set pre.length (-1) = (pre ++ [-1]) ++ xs := by simp
      have hlen : (pre ++ [(-1 : Int)]).length = pre.length + 1 := by simp
      have := ih (pre ++ [-1]) (os.close w x)
      rw [hlen] at this
      simp only [ge_iff_le, hx, if_true, hset, this]
      simp [occupied, cleared, hx]
    · have hlen : (pre ++ [x]).length = pre.length + 1 := by simp
      have := ih (pre ++ [x]) w
      rw [hlen] at this
      have happ : pre ++ x :: xs = (pre ++ [x]) ++ xs := by simp
      simp only [ge_iff_le, hx, if_false]
      rw [happ, this]
      simp [occupied, cleared, hx]

theorem close_fds_eq {W : Type} (os : Libc W) (w : W) (cmdl : command_line_t)
    (hlen : cmdl.opened_descriptors.length = MAX_FDS) :
    close_fds os w cmdl =
      ((occupied cmdl.opened_descriptors).foldl os.close w,
        { cmdl with opened_descriptors := cmdl.opened_descriptors.map cleared }, 0) := by
  have := close_fds_loop_spec os cmdl.opened_descriptors [] w
  rw [hlen] at this
  simp only [List.length_nil, List.nil_append] at this
  simp [close_fds, this]

theorem cleared_neg (fd : Int) : cleared fd < 0 := by
  unfold cleared; split <;> omega

theorem occupied_map_cleared (slots : List Int) : occupied (slots.map cleared) = [] := by
  unfold occupied
  rw [List.filter_eq_nil_iff]
  intro a ha
  obtain ⟨b, -, hb⟩ := List.mem_map.mp ha
  have := cleared_neg b
  simp only [decide_eq_true_eq]
  omega

theorem map_cleared_map_cleared (slots : List Int) :
    (slots.map cleared).map cleared = slots.map cleared := by
  rw [List.map_map]
  apply List.map_congr_left
  intro a _
  have := cleared_neg a
  simp only [Function.comp]
  unfold cleared at this ⊢
  by_cases h : 0 ≤ a
  · simp [h]
  · simp [h]

theorem map_cleared_eq_replicate (slots : List Int) (h : ∀ fd ∈ slots, -1 ≤ fd) :
    slots.map cleared = List.replicate slots.length (-1) := by
  rw [List.eq_replicate_iff]
  refine ⟨by simp, ?_⟩
  intro b hb
  obtain ⟨a, ha, hab⟩ := List.mem_map.mp hb
  have := h a ha
  rw [← hab]
  unfold cleared
  split <;> omega

theorem add_fd_length (cmdl : command_line_t) (fd : Int) :
    (add_fd cmdl fd).1.opened_descriptors.length = cmdl.opened_descriptors.length := by
  rcases add_fd_cases cmdl fd with ⟨he, -⟩ | ⟨-, k, -, -, he⟩
  · rw [he]
  · rw [he]; simp

theorem no_duplicate_add_fd (cmdl : command_line_t) (fd : Int)
    (hnd : no_duplicate cmdl.opened_descriptors)
    (hfresh0 : (add_fd cmdl fd).2 = 0 → fd ∉ cmdl.opened_descriptors) :
    no_duplicate (add_fd cmdl fd).1.opened_descriptors := by
  rcases add_fd_cases cmdl fd with ⟨he, -⟩ | ⟨-, k, -, -, he⟩
  · rw [he]; exact hnd
  · have hfresh : fd ∉ cmdl.opened_descriptors := hfresh0 (by rw [he])
    rw [he]
    intro i j a ha hi hj
    simp only [List.getElem?_set] at hi hj
    by_cases hki : k = i
    · by_cases hkj : k = j
      · omega
      · rw [if_neg hkj] at hj
        rw [if_pos hki] at hi
        split at hi
        · have : a = fd := by injection hi with e; exact e.symm
          rw [this] at hj
          exact absurd (List.mem_iff_getElem?.mpr ⟨j, hj⟩) hfresh
        · exact absurd hi (by simp)
    · rw [if_neg hki] at hi
      by_cases hkj : k = j
      · rw [if_pos hkj] at hj
        split at hj
        · have : a = fd := by injection hj with e; exact e.symm
          rw [this] at hi
          exact absurd (List.mem_iff_getElem?.mpr ⟨i, hi⟩) hfresh
        · exact absurd hj (by simp)
      · rw [if_neg hkj] at hj
        exact hnd i j a ha hi hj

theorem no_duplicate_map_cleared (slots : List Int) : no_duplicate (slots.map cleared) := by
  intro i j a ha hi _
  have hmem : a ∈ slots.map cleared := List.mem_iff_getElem?.mpr ⟨i, hi⟩
  obtain ⟨b, -, hb⟩ := List.mem_map.mp hmem
  have := cleared_neg b
  omega

theorem no_duplicate_run_fd_calls {W : Type} (os : Libc W) (calls : List fd_call) :
    ∀ (w : W) (cmdl : command_line_t),
      cmdl.opened_descriptors.length = MAX_FDS → no_duplicate cmdl.opened_descriptors →
      registers_fresh os w cmdl calls →
      no_duplicate (run_fd_calls os w cmdl calls).2.opened_descriptors := by
  induction calls with
  | nil => intro w cmdl _ hnd _; exact hnd
  | cons c calls ih =>
    intro w cmdl hlen hnd hfresh
    cases c with
    | add fd =>
      simp only [registers_fresh] at hfresh
      simp only [run_fd_calls]
      exact ih w _ (by rw [add_fd_length, hlen]) (no_duplicate_add_fd cmdl fd hnd hfresh.1)
        hfresh.2
    | close_all =>
      simp only [registers_fresh] at hfresh
      simp only [run_fd_calls]
      apply ih _ _ _ _ hfresh
      · rw [close_fds_eq os w cmdl hlen]; simp [hlen]
      · rw [close_fds_eq os w cmdl hlen]; exact no_duplicate_map_cleared _

theorem next_node_mem (node : control_flow_t) (status : Int) :
    next_node node status = node.on_success_next ∨
    next_node node status = node.on_failure_next ∨
    next_node node status = node.unconditionnal_next := by
  rw [next_node_eq_selected_edge]
  unfold selected_edge
  split_ifs
  · exact Or.inl rfl
  · exact Or.inr (Or.inl rfl)
  · exact Or.inr (Or.inr rfl)

theorem edge_forward_some (len j k : Nat) (edge : Option Nat)
    (h : edge_forward len j edge = true) (hk : edge = some k) : j < k ∧ k < len := by
  subst hk
  simpa [edge_forward] using h

theorem forward_linked_at (cmdl : command_line_t) (h : forward_linked cmdl = true)
    (j : Nat) (node : control_flow_t) (hnode : cmdl.flow[j]? = some node) :
    (∀ p, node.proc = some p → p < cmdl.commands.length) ∧
    (∀ status k, next_node node status = some k → j < k ∧ k < cmdl.flow.length) := by
  unfold forward_linked at h
  rw [List.all_eq_true] at h
  have hx := h (j, node) (List.mk_mem_enum_iff_getElem?.mpr hnode)
  simp only [Bool.and_eq_true] at hx
  obtain ⟨⟨⟨hproc, hu⟩, hs⟩, hf⟩ := hx
  constructor
  · intro p hp
    rw [hp] at hproc
    simpa using hproc
  · intro status k hk
    rcases next_node_mem node status with e | e | e
    · exact edge_forward_some _ _ _ _ hs (e ▸ hk)
    · exact edge_forward_some _ _ _ _ hf (e ▸ hk)
    · exact edge_forward_some _ _ _ _ hu (e ▸ hk)

theorem forward_linked_set_commands (cmdl : command_line_t) (p : Nat) (proc : processus_t) :
    forward_linked { cmdl with commands := cmdl.commands.set p proc } = forward_linked cmdl := by
  simp [forward_linked]

theorem launch_nodes_returned {W : Type} (os : Libc W) :
    ∀ (fuel : Nat) (w : W) (cmdl : command_line_t) (cf : Option Nat) (seen : List Nat)
      (w1 : W) (cmdl1 : command_line_t) (x : Option Int) (seen1 : List Nat),
      launch_nodes os fuel w cmdl cf seen = some (.returned w1 (cmdl1, x, seen1)) →
      cmdl1.opened_descriptors = cmdl.opened_descriptors ∧ cmdl1.flow = cmdl.flow ∧
      cmdl1.num_commands = cmdl.num_commands ∧ (∀ r, x = some r → r < 0) := by
  intro fuel
  induction fuel with
  | zero => intro w cmdl cf seen w1 cmdl1 x seen1 h; simp [launch_nodes] at h
  | succ n ih =>
    intro w cmdl cf seen w1 cmdl1 x seen1 h
    cases cf with
    | none =>
      simp only [launch_nodes, Option.some.injEq, Outcome.returned.injEq, Prod.mk.injEq] at h
      obtain ⟨-, rfl, rfl, -⟩ := h
      exact ⟨rfl, rfl, rfl, by simp⟩
    | some j =>
      cases hnode : cmdl.flow[j]? with
      | none => simp [launch_nodes, hnode] at h
      | some node =>
        cases hp : node.proc with
        | none =>
          simp only [launch_nodes, hnode, hp, Option.some.injEq, Outcome.returned.injEq,
            Prod.mk.injEq] at h
          obtain ⟨-, rfl, rfl, -⟩ := h
          exact ⟨rfl, rfl, rfl, by simp⟩
        | some p =>
          cases hproc : cmdl.commands[p]? with
          | none => simp [launch_nodes, hnode, hp, hproc] at h
          | some proc =>
            cases hl : launch_processus os w (tracked_of cmdl proc) proc with
            | returned w2 res =>
              by_cases hr : res.2 < 0
              · simp only [launch_nodes, hnode, hp, hproc, hl, hr, if_true, Option.some.injEq,
                  Outcome.returned.injEq, Prod.mk.injEq] at h
                obtain ⟨-, rfl, rfl, -⟩ := h
                exact ⟨rfl, rfl, rfl, by intro r e; injection e with e; rw [← e]; exact hr⟩
              · simp only [launch_nodes, hnode, hp, hproc, hl, hr, if_false] at h
                have h2 := ih _ _ _ _ _ _ _ _ h
                exact h2
            | exited w2 code => simp [launch_nodes, hnode, hp, hproc, hl] at h
            | replaced w2 => simp [launch_nodes, hnode, hp, hproc, hl] at h

theorem launch_nodes_total {W : Type} (os : Libc W) :
    ∀ (fuel : Nat) (w : W) (cmdl : command_line_t) (cf : Option Nat) (seen : List Nat),
      forward_linked cmdl = true → 0 < fuel →
      (∀ j, cf = some j → j < cmdl.flow.length ∧ cmdl.flow.length - j < fuel) →
      (launch_nodes os fuel w cmdl cf seen).isSome = true := by
  intro fuel
  induction fuel with
  | zero => intro w cmdl cf seen _ h0 _; exact absurd h0 (Nat.lt_irrefl 0)
  | succ n ih =>
    intro w cmdl cf seen hfl _ hcf
    cases cf with
    | none => simp [launch_nodes]
    | some j =>
      obtain ⟨hj, hfuel⟩ := hcf j rfl
      have hnode : cmdl.flow[j]? = some cmdl.flow[j] := List.getElem?_eq_getElem hj
      obtain ⟨hprocs, hedges⟩ := forward_linked_at cmdl hfl j _ hnode
      cases hp : (cmdl.flow[j]).proc with
      | none => simp [launch_nodes, hnode, hp]
      | some p =>
        have hplt := hprocs p hp
        have hproc : cmdl.commands[p]? = some cmdl.commands[p] := List.getElem?_eq_getElem hplt
        cases hl : launch_processus os w (tracked_of cmdl cmdl.commands[p]) cmdl.commands[p] with
        | returned w2 res =>
          by_cases hr : res.2 < 0
          · simp [launch_nodes, hnode, hp, hproc, hl, hr]
          · have hn0 : 0 < n := by omega
            have hrec := ih w2 { cmdl with commands := cmdl.commands.set p res.1 }
              (next_node cmdl.flow[j] res.1.status) (seen ++ [j])
              (by rw [forward_linked_set_commands]; exact hfl) hn0
              (by
                intro k hk
                have := hedges _ k hk
                simp only
                omega)
            simp only [launch_nodes, hnode, hp, hproc, hl, hr, if_false]
            exact hrec
        | exited w2 code => simp [launch_nodes, hnode, hp, hproc, hl]
        | replaced w2 => simp [launch_nodes, hnode, hp, hproc, hl]

theorem add_fd_slots (cmdl : command_line_t) (fd : Int)
    (h : ∀ a ∈ cmdl.opened_descriptors, -1 ≤ a) :
    ∀ a ∈ (add_fd cmdl fd).1.opened_descriptors, -1 ≤ a := by
  rcases add_fd_cases cmdl fd with ⟨he, -⟩ | ⟨hfd, k, -, -, he⟩
  · rw [he]; exact h
  · rw [he]
    intro a ha
    rcases List.mem_or_eq_of_mem_set ha with hm | hm
    · exact h a hm
    · omega

/-- Every descriptor set reached from `init_command_line` by calls of `add_fd`
and `close_fds` has `MAX_FDS` slots, each holding a descriptor number or the
sentinel. -/
theorem run_fd_calls_slots {W : Type} (os : Libc W) (calls : List fd_call) :
    ∀ (w : W) (cmdl : command_line_t),
      cmdl.opened_descriptors.length = MAX_FDS →
      (∀ a ∈ cmdl.opened_descriptors, -1 ≤ a) →
      (run_fd_calls os w cmdl calls).2.opened_descriptors.length = MAX_FDS ∧
      ∀ a ∈ (run_fd_calls os w cmdl calls).2.opened_descriptors, -1 ≤ a := by
  induction calls with
  | nil => intro w cmdl hlen h; exact ⟨hlen, h⟩
  | cons c calls ih =>
    intro w cmdl hlen h
    cases c with
    | add fd =>
      simp only [run_fd_calls]
      exact ih w _ (by rw [add_fd_length, hlen]) (add_fd_slots cmdl fd h)
    | close_all =>
      simp only [run_fd_calls]
      apply ih
      · rw [close_fds_eq os w cmdl hlen]; simp [hlen]
      · rw [close_fds_eq os w cmdl hlen]
        intro a ha
        obtain ⟨b, hb, hab⟩ := List.mem_map.mp ha
        have := h b hb
        rw [← hab]
        unfold cleared
        split <;> omega

theorem not_digit_iff (c : Char) : (decide (c < '0') || decide (c > '9')) = !c.isDigit := by
  have h0 : ('0' : Char).val = 48 := rfl
  have h9 : ('9' : Char).val = 57 := rfl
  simp only [Char.isDigit, gt_iff_lt, ge_iff_le, Char.lt_def, h0, h9]
  by_cases h1 : c.val < 48
  · have : ¬ (48 : UInt32) ≤ c.val := fun h => (UInt32.not_lt.mpr h) h1
    simp [h1, this]
  · by_cases h2 : (57 : UInt32) < c.val
    · have : ¬ c.val ≤ 57 := fun h => (UInt32.not_lt.mpr h) h2
      simp [h2, this]
    · have a := UInt32.not_lt.mp h1
      have b := UInt32.not_lt.mp h2
      simp [h1, h2, a, b]

theorem toNat?_digits_value (a : String) (n : Nat) (h : a.toNat? = some n) :
    digits_value a.data = n ∧ a.data.all Char.isDigit = true := by
  unfold String.toNat? at h
  split at h
  · rename_i hnat
    injection h with h
    unfold String.isNat at hnat
    rw [String.all_eq] at hnat
    simp only [Bool.and_eq_true] at hnat
    refine ⟨?_, hnat.2⟩
    rw [← h, String.foldl_eq]
    unfold digits_value
    congr 1
    funext k c
    rw [Nat.mul_comm]
    rfl
  · exact absurd h (by simp)

theorem atoi_of_le (s : String) (h : digits_value s.data ≤ 2147483647) :
    atoi s = digits_value s.data := by
  unfold atoi
  have h1 : min (digits_value s.data : Int) (2 ^ 63 - 1) = digits_value s.data := by
    apply min_eq_left
    omega
  simp only [h1]
  split <;> omega

theorem builtin_exit_digits {W : Type} (os : Libc W) (w : W) (cmd : processus_t) (a : String)
    (harg : argv_at cmd 1 = some a) (hall : a.data.all Char.isDigit = true) :
    builtin_exit os w cmd = .exited w (atoi a) := by
  have hany : a.data.any (fun c => decide (c < '0') || decide (c > '9')) = false := by
    rw [List.any_eq_false]
    intro c hc
    rw [not_digit_iff]
    simpa using List.all_eq_true.mp hall c hc
  simp [builtin_exit, harg, hany]

theorem builtin_exit_not_digits {W : Type} (os : Libc W) (w : W) (cmd : processus_t)
    (a : String) (harg : argv_at cmd 1 = some a)
    (hbad : ∃ c ∈ a.data, c.isDigit = false) :
    builtin_exit os w cmd =
      .returned (os.dprintf w cmd.stderr_fd "exit: numeric argument required\n")
        (cmd, -1) := by
  have hany : a.data.any (fun c => decide (c < '0') || decide (c > '9')) = true := by
    rw [List.any_eq_true]
    obtain ⟨c, hc, hd⟩ := hbad
    exact ⟨c, hc, by rw [not_digit_iff, hd]; rfl⟩
  simp [builtin_exit, harg, hany]

theorem chain_shape_init (j num : Nat) :
    chain_shape { init_control_flow.1 with cmdl := true } j 0 ∧
    chain_shape (fresh_node num) num (num + 1) := by
  refine ⟨⟨?_, ?_, ?_⟩, ⟨?_, ?_, ?_⟩⟩
  · intro h; exact absurd h (Nat.not_lt_zero j)
  · intro h; exact absurd h (Nat.not_lt_zero _)
  · intro _; rfl
  · intro _; rfl
  · intro h; exact absurd h (Nat.lt_irrefl _)
  · intro _; rfl

theorem chain_shape_set_edge (m : control_flow_mode_t) (prev : control_flow_t) (i : Nat)
    (h : chain_shape prev i (i + 1)) :
    chain_shape (set_edge m (some (i + 1)) prev) i (i + 2) := by
  obtain ⟨hp, -, hnone⟩ := h
  have hn := hnone (Nat.le_refl _)
  simp only [edges_of, List.cons.injEq, and_true] at hn
  obtain ⟨hu, hs, hf⟩ := hn
  refine ⟨?_, ?_, ?_⟩
  · intro _
    have := hp (Nat.lt_succ_self i)
    cases m <;> exact this
  · intro _
    cases m
    · left; simp [edges_of, set_edge, hs, hf]
    · right; left; simp [edges_of, set_edge, hu, hf]
    · right; right; simp [edges_of, set_edge, hu, hs]
  · intro h; omega

theorem chain_line_add_processus (L : Limits) (cmdl : command_line_t)
    (m : control_flow_mode_t)
    (hc : cmdl.commands.length = L.MAX_CMDS) (hf : cmdl.flow.length = L.MAX_CMDS)
    (h : chain_line cmdl) :
    (add_processus L cmdl m).1.commands.length = L.MAX_CMDS ∧
    (add_processus L cmdl m).1.flow.length = L.MAX_CMDS ∧
    chain_line (add_processus L cmdl m).1 := by
  by_cases hk : cmdl.num_commands < L.MAX_CMDS
  · obtain ⟨-, hn, -, -, -, hcl, hfl⟩ := add_processus_result L cmdl m hk
    refine ⟨by rw [hcl, hc], by rw [hfl, hf], ?_, ?_, ?_⟩
    · rw [hn, hcl, hc]; omega
    · rw [hn, hfl, hf]; omega
    · intro j node hnode
      rw [add_processus_flow L cmdl m hk j] at hnode
      rw [hn]
      by_cases hj : j = cmdl.num_commands
      · rw [if_pos hj] at hnode
        cases hold : cmdl.flow[j]? with
        | none => rw [hold] at hnode; exact absurd hnode (by simp)
        | some old =>
          rw [hold] at hnode
          simp only [Option.map_some', Option.some.injEq] at hnode
          rw [← hnode, hj]
          exact (chain_shape_init 0 cmdl.num_commands).2
      · rw [if_neg hj] at hnode
        by_cases hj1 : j + 1 = cmdl.num_commands
        · rw [if_pos hj1] at hnode
          cases hold : cmdl.flow[j]? with
          | none => rw [hold] at hnode; exact absurd hnode (by simp)
          | some old =>
            rw [hold] at hnode
            simp only [Option.map_some', Option.some.injEq] at hnode
            have hshape := h.2.2 j old hold
            rw [← hj1] at hshape
            rw [← hnode, ← hj1]
            exact chain_shape_set_edge m old j hshape
        · rw [if_neg hj1] at hnode
          obtain ⟨hp, hone, hnone⟩ := h.2.2 j node hnode
          exact ⟨fun hlt => hp (by omega), fun hlt => hone (by omega),
            fun hle => hnone (by omega)⟩
  · rw [add_processus_full L cmdl m (by omega)]
    exact ⟨hc, hf, h⟩

theorem chain_line_add_each (L : Limits) (modes : List control_flow_mode_t) :
    ∀ cmdl : command_line_t,
      cmdl.commands.length = L.MAX_CMDS → cmdl.flow.length = L.MAX_CMDS → chain_line cmdl →
      (add_each L cmdl modes).1.num_commands ≤ L.MAX_CMDS ∧
      chain_line (add_each L cmdl modes).1 := by
  induction modes with
  | nil =>
    intro cmdl hc _ h
    exact ⟨by rw [← hc]; exact h.1, h⟩
  | cons m ms ih =>
    intro cmdl hc hf h
    obtain ⟨hc2, hf2, h2⟩ := chain_line_add_processus L cmdl m hc hf h
    exact ih _ hc2 hf2 h2

theorem chain_line_init (L : Limits) : chain_line (init_command_line L).1 := by
  refine ⟨Nat.zero_le _, Nat.zero_le _, ?_⟩
  intro j node hnode
  have hmem : node ∈ (init_command_line L).1.flow := List.mem_iff_getElem?.mpr ⟨j, hnode⟩
  simp only [init_command_line, List.mem_replicate] at hmem
  rw [hmem.2]
  exact (chain_shape_init j 0).1

theorem chain_shape_next (node : control_flow_t) (j num : Nat) (h : chain_shape node j num)
    (status : Int) :
    next_node node status = none ∨
      (next_node node status = some (j + 1) ∧ j + 1 < num) := by
  obtain ⟨-, hone, hnone⟩ := h
  by_cases hlt : j + 1 < num
  · have hcases := hone hlt
    simp only [edges_of, List.cons.injEq, and_true] at hcases
    rcases next_node_mem node status with e | e | e <;>
      rcases hcases with ⟨hu, hs, hf⟩ | ⟨hu, hs, hf⟩ | ⟨hu, hs, hf⟩ <;>
      rw [e] <;> first
        | exact Or.inl hu | exact Or.inl hs | exact Or.inl hf
        | exact Or.inr ⟨hu, hlt⟩ | exact Or.inr ⟨hs, hlt⟩ | exact Or.inr ⟨hf, hlt⟩
  · have hn := hnone (by omega)
    simp only [edges_of, List.cons.injEq, and_true] at hn
    obtain ⟨hu, hs, hf⟩ := hn
    rcases next_node_mem node status with e | e | e <;> rw [e]
    · exact Or.inl hs
    · exact Or.inl hf
    · exact Or.inl hu

theorem chain_line_set_commands (cmdl : command_line_t) (p : Nat) (proc : processus_t)
    (h : chain_line cmdl) :
    chain_line { cmdl with commands := cmdl.commands.set p proc } := by
  obtain ⟨hc, hf, hs⟩ := h
  exact ⟨by simpa using hc, hf, hs⟩

theorem launch_nodes_chain {W : Type} (os : Libc W) :
    ∀ (fuel : Nat) (w : W) (cmdl : command_line_t) (cf : Option Nat) (seen : List Nat)
      (k : Nat),
      chain_line cmdl → k ≤ cmdl.num_commands → seen = List.range k →
      (cf = none ∨ (cf = some k ∧ k < cmdl.num_commands)) →
      (cmdl.num_commands - k < fuel → (launch_nodes os fuel w cmdl cf seen).isSome = true) ∧
      (∀ w1 cmdl1 x seen1,
        launch_nodes os fuel w cmdl cf seen = some (.returned w1 (cmdl1, x, seen1)) →
        ∃ k1, k1 ≤ cmdl.num_commands ∧ seen1 = List.range k1) := by
  intro fuel
  induction fuel with
  | zero =>
    intro w cmdl cf seen k _ _ _ _
    exact ⟨fun h => absurd h (Nat.not_lt_zero _), fun _ _ _ _ h => by simp [launch_nodes] at h⟩
  | succ n ih =>
    intro w cmdl cf seen k hline hk hseen hcf
    rcases hcf with hnone | ⟨hsome, hlt⟩
    · subst hnone
      refine ⟨fun _ => by simp [launch_nodes], ?_⟩
      intro w1 cmdl1 x seen1 h
      simp only [launch_nodes, Option.some.injEq, Outcome.returned.injEq, Prod.mk.injEq] at h
      obtain ⟨-, -, -, hs⟩ := h
      exact ⟨k, hk, by rw [← hs, hseen]⟩
    · subst hsome
      have hjf : k < cmdl.flow.length := Nat.lt_of_lt_of_le hlt hline.2.1
      have hjc : k < cmdl.commands.length := Nat.lt_of_lt_of_le hlt hline.1
      have hnode : cmdl.flow[k]? = some cmdl.flow[k] := List.getElem?_eq_getElem hjf
      have hshape := hline.2.2 k _ hnode
      have hp : (cmdl.flow[k]).proc = some k := hshape.1 hlt
      have hproc : cmdl.commands[k]? = some cmdl.commands[k] := List.getElem?_eq_getElem hjc
      have hseen1 : seen ++ [k] = List.range (k + 1) := by rw [hseen, List.range_succ]
      cases hl : launch_processus os w (tracked_of cmdl cmdl.commands[k]) cmdl.commands[k] with
      | returned w2 res =>
        by_cases hr : res.2 < 0
        · refine ⟨fun _ => by simp [launch_nodes, hnode, hp, hproc, hl, hr], ?_⟩
          intro w1 cmdl1 x seen1 h
          simp only [launch_nodes, hnode, hp, hproc, hl, hr, if_true, Option.some.injEq,
            Outcome.returned.injEq, Prod.mk.injEq] at h
          obtain ⟨-, -, -, hs⟩ := h
          exact ⟨k + 1, hlt, by rw [← hs, hseen1]⟩
        · have hrec := ih w2 { cmdl with commands := cmdl.commands.set k res.1 }
            (next_node cmdl.flow[k] res.1.status) (seen ++ [k]) (k + 1)
            (chain_line_set_commands cmdl k res.1 hline) hlt hseen1
            (by
              rcases chain_shape_next _ _ _ hshape res.1.status with e | ⟨e, hlt2⟩
              · exact Or.inl e
              · exact Or.inr ⟨e, hlt2⟩)
          simp only [launch_nodes, hnode, hp, hproc, hl, hr, if_false]
          exact ⟨fun hfuel => hrec.1 (by simp only; omega), hrec.2⟩
      | exited w2 code =>
        exact ⟨fun _ => by simp [launch_nodes, hnode, hp, hproc, hl],
          fun _ _ _ _ h => by simp [launch_nodes, hnode, hp, hproc, hl] at h⟩
      | replaced w2 =>
        exact ⟨fun _ => by simp [launch_nodes, hnode, hp, hproc, hl],
          fun _ _ _ _ h => by simp [launch_nodes, hnode, hp, hproc, hl] at h⟩

theorem launch_command_line_chain {W : Type} (os : Libc W) (fuel : Nat) (w : W)
    (cmdl : command_line_t) (hline : chain_line cmdl) :
    (cmdl.num_commands < fuel → (launch_command_line os fuel w cmdl).isSome = true) ∧
    (∀ w1 cmdl1 r seen,
      launch_command_line os fuel w cmdl = some (.returned w1 (cmdl1, r, seen)) →
      ∃ k, k ≤ cmdl.num_commands ∧ seen = List.range k) := by
  by_cases h0 : cmdl.num_commands = 0
  · refine ⟨fun _ => by simp [launch_command_line, h0], ?_⟩
    intro w1 cmdl1 r seen h
    simp only [launch_command_line, h0, if_true, Option.some.injEq, Outcome.returned.injEq,
      Prod.mk.injEq] at h
    obtain ⟨-, -, -, hs⟩ := h
    exact ⟨0, Nat.zero_le _, by rw [← hs]; rfl⟩
  · obtain ⟨htot, hseen⟩ := launch_nodes_chain os fuel w cmdl (some 0) [] 0 hline
      (Nat.zero_le _) rfl (Or.inr ⟨rfl, by omega⟩)
    cases hres : launch_nodes os fuel w cmdl (some 0) [] with
    | none =>
      refine ⟨fun hf => ?_, ?_⟩
      · have := htot (by omega)
        rw [hres] at this
        exact absurd this (by simp)
      · intro w1 cmdl1 r seen h
        simp [launch_command_line, h0, hres] at h
    | some out =>
      cases out with
      | returned w2 val =>
        obtain ⟨cmdl2, x, seen2⟩ := val
        obtain ⟨k, hk, hs⟩ := hseen w2 cmdl2 x seen2 hres
        cases x with
        | none =>
          refine ⟨fun _ => by simp [launch_command_line, h0, hres], ?_⟩
          intro w1 cmdl1 r seen h
          simp only [launch_command_line, h0, if_false, hres, Option.some.injEq,
            Outcome.returned.injEq, Prod.mk.injEq] at h
          obtain ⟨-, -, -, hs2⟩ := h
          exact ⟨k, hk, by rw [← hs2, hs]⟩
        | some ret =>
          refine ⟨fun _ => by simp [launch_command_line, h0, hres], ?_⟩
          intro w1 cmdl1 r seen h
          simp only [launch_command_line, h0, if_false, hres, Option.some.injEq,
            Outcome.returned.injEq, Prod.mk.injEq] at h
          obtain ⟨-, -, -, hs2⟩ := h
          exact ⟨k, hk, by rw [← hs2, hs]⟩
      | exited w2 code =>
        exact ⟨fun _ => by simp [launch_command_line, h0, hres],
          fun _ _ _ _ h => by simp [launch_command_line, h0, hres] at h⟩
      | replaced w2 =>
        exact ⟨fun _ => by simp [launch_command_line, h0, hres],
          fun _ _ _ _ h => by simp [launch_command_line, h0, hres] at h⟩

theorem chain_shape_edges (node : control_flow_t) (j num : Nat)
    (h : chain_shape node j num) :
    ((edges_of node).filter Option.isSome).length ≤ 1 ∧
    (∀ k, some k ∈ edges_of node → k = j + 1 ∧ k < num) := by
  obtain ⟨-, hone, hnone⟩ := h
  by_cases hlt : j + 1 < num
  · rcases hone hlt with e | e | e <;> rw [e] <;>
      exact ⟨by simp, fun k hk => by simp at hk; omega⟩
  · rw [hnone (by omega)]
    exact ⟨by simp, fun k hk => by simp at hk⟩

/-! ## The claims -/

/-- C1 (the code departs from the claim): a foreground builtin whose handler
returns a nonzero value leaves `status` at 1, but `launch_processus` returns
-1, not 1; the loop of `launch_command_line` run on that node therefore stops
at once with -1 as the value to return, and selects no next node. -/
theorem failed_foreground_builtin_returns_minus_one {W : Type} (os : Libc W) (w w1 : W)
    (proc proc1 : processus_t) (r : Int)
    (hb : is_builtin proc = true) (hfg : proc.is_background = 0)
    (hr : exec_builtin os w proc = .returned w1 (proc1, r)) (hfail : r ≠ 0) :
    (∀ tracked, launch_processus os w tracked proc =
        .returned w1 ({ proc1 with status := 1 }, -1)) ∧
    (∀ fuel cmdl j node p seen,
        cmdl.flow[j]? = some node → node.proc = some p → cmdl.commands[p]? = some proc →
        launch_nodes os (fuel + 1) w cmdl (some j) seen =
          some (.returned w1
            ({ cmdl with commands := cmdl.commands.set p { proc1 with status := 1 } },
              some (-1), seen ++ [j]))) := by
  have h1 : ∀ tracked, launch_processus os w tracked proc =
      .returned w1 ({ proc1 with status := 1 }, -1) := by
    intro tracked
    simp [launch_processus, hb, hfg, hr, hfail]
  refine ⟨h1, ?_⟩
  intro fuel cmdl j node p seen hnode hp hproc
  simp [launch_nodes, hnode, hp, hproc, h1]

/-- C1, on the line `cd /nonexistent || echo failed`: the failed `cd` makes
`launch_command_line` return -1 after one launch; `echo` is not launched and
the tracked descriptor 5 is neither closed nor removed from the set. -/
theorem failed_foreground_builtin_returns_minus_one_witness :
    launch_processus simLibc (simWorld []) none cd_missing =
      .returned
        { simWorld [] with written := [(2, "cd: /nonexistent: No such file or directory\n")] }
        ({ cd_missing with status := 1 }, -1) ∧
    launch_command_line simLibc 3 (simWorld []) cd_or_echo =
      some (.returned
        { simWorld [] with written := [(2, "cd: /nonexistent: No such file or directory\n")] }
        ({ cd_or_echo with
            commands := update_at cd_or_echo.commands 0 (fun proc => { proc with status := 1 }) },
          -1, [0])) ∧
    cd_or_echo.opened_descriptors[0]? = some 5 ∧
    (cd_or_echo.flow[0]?).map (fun n => n.on_failure_next) = some (some 1) :=
  ⟨(failed_foreground_builtin_returns_minus_one simLibc (simWorld [])
      { simWorld [] with written := [(2, "cd: /nonexistent: No such file or directory\n")] }
      cd_missing cd_missing (-1) (by decide) (by decide) (by decide) (by decide)).1 none,
    by decide, by decide, by decide⟩

/-- C10: `is_builtin` holds exactly when `path` is present and equal to one of
`cd`, `exit`, `export`, `unset`, `pwd`; `exec_builtin` is the handler of that
name on each of the five, and for every other or absent path it returns -1 with
the world and the descriptor untouched (no handler is run). -/
theorem is_builtin_exec_builtin_names {W : Type} (os : Libc W) (w : W) (cmd : processus_t) :
    (is_builtin cmd = true ↔
      ∃ s, cmd.path = some s ∧
        (s = "cd" ∨ s = "exit" ∨ s = "export" ∨ s = "unset" ∨ s = "pwd")) ∧
    (cmd.path = some "cd" → exec_builtin os w cmd = builtin_cd os w cmd) ∧
    (cmd.path = some "exit" → exec_builtin os w cmd = builtin_exit os w cmd) ∧
    (cmd.path = some "export" → exec_builtin os w cmd = builtin_export os w cmd) ∧
    (cmd.path = some "unset" → exec_builtin os w cmd = builtin_unset os w cmd) ∧
    (cmd.path = some "pwd" → exec_builtin os w cmd = builtin_pwd os w cmd) ∧
    (is_builtin cmd = false → exec_builtin os w cmd = .returned w (cmd, -1)) := by
  refine ⟨is_builtin_iff cmd, ?_, ?_, ?_, ?_, ?_, ?_⟩
  · intro h; simp [exec_builtin, h, strcmp_eq_zero]
  · intro h; simp [exec_builtin, h, strcmp_eq_zero]
  · intro h; simp [exec_builtin, h, strcmp_eq_zero]
  · intro h; simp [exec_builtin, h, strcmp_eq_zero]
  · intro h; simp [exec_builtin, h, strcmp_eq_zero]
  · intro h
    unfold is_builtin at h
    unfold exec_builtin
    cases hp : cmd.path with
    | none => rfl
    | some s =>
      rw [hp] at h
      simp only [Bool.or_eq_false_iff] at h
      obtain ⟨⟨⟨⟨h1, h2⟩, h3⟩, h4⟩, h5⟩ := h
      simp [h1, h2, h3, h4, h5]

/-- C10 on examples: `cd` is a builtin and runs `builtin_cd`; `CD`, `c`, `cdd`
and an absent path are not builtins and `exec_builtin` returns -1 on them
without any effect. -/
theorem is_builtin_exec_builtin_names_witness :
    is_builtin cd_missing = true ∧
    exec_builtin simLibc (simWorld []) cd_missing = builtin_cd simLibc (simWorld []) cd_missing ∧
    is_builtin { cd_missing with path := some "CD" } = false ∧
    is_builtin { cd_missing with path := some "c" } = false ∧
    is_builtin { cd_missing with path := none } = false ∧
    exec_builtin simLibc (simWorld []) { cd_missing with path := some "cdd" } =
      .returned (simWorld []) ({ cd_missing with path := some "cdd" }, -1) :=
  ⟨(is_builtin_exec_builtin_names simLibc (simWorld []) cd_missing).1.2
      ⟨"cd", rfl, Or.inl rfl⟩,
    (is_builtin_exec_builtin_names simLibc (simWorld []) cd_missing).2.1 rfl,
    by decide, by decide, by decide,
    (is_builtin_exec_builtin_names simLibc (simWorld [])
      { cd_missing with path := some "cdd" }).2.2.2.2.2.2 (by decide)⟩

/-- C3: for a foreground external process whose child was created and waited
for, `launch_processus` stores the raw wait status `ws` in `status` and returns
the exit code for a clean exit (0 for code 0), 128+n for a termination by
signal n (137 for signal 9), and -1 for the remaining shape; a status that is
not a clean exit makes the branching test of the line driver take the failure
side. -/
theorem foreground_external_normalized_status {W : Type} (os : Libc W)
    (w w0 w1 w2 w3 : W) (t0 t1 : timespec) (pid wr ws : Int)
    (tracked : Option (List Int)) (proc : processus_t)
    (hext : is_builtin proc = false) (hfg : proc.is_background = 0)
    (hclock : os.clock_gettime w = (w0, t0))
    (hfork : os.fork w0 = (w1, pid)) (hpid : 0 < pid)
    (hwait : os.waitpid w1 pid = (w2, wr, ws)) (hwr : 0 ≤ wr)
    (hclock2 : os.clock_gettime w2 = (w3, t1)) :
    ∃ r, launch_processus os w tracked proc =
        .returned w3
          ({ proc with start_time := t0, pid := pid, status := ws, end_time := t1 }, r) ∧
      (ws % 128 = 0 → r = ws / 256 % 256 ∧ 0 ≤ r ∧ r ≤ 255) ∧
      (∀ c, 0 ≤ c → c ≤ 255 → ws = 256 * c → r = c) ∧
      (∀ n, 1 ≤ n → n ≤ 126 → (ws = n ∨ ws = 128 + n) → r = 128 + n) ∧
      (1 ≤ ws % 128 → ws % 128 ≤ 126 → r = 128 + ws % 128) ∧
      (ws % 128 = 127 → r = -1) ∧
      (ws % 128 ≠ 0 → ¬ clean_exit_zero ws ∧
        ∀ node, next_node node ws =
          if node.on_failure_next ≠ none then node.on_failure_next
          else node.unconditionnal_next) := by
  have hnp : ¬ pid < 0 := by omega
  have hnz : ¬ pid = 0 := by omega
  have hnw : ¬ wr < 0 := by omega
  by_cases h0 : ws % 128 = 0
  · refine ⟨if ws / 256 % 256 = 0 then 0 else ws / 256 % 256, ?_, ?_, ?_, ?_, ?_, ?_, ?_⟩
    · simp [launch_processus, hext, hfg, hclock, hfork, hnp, hnz, hwait, hnw, hclock2,
        WIFEXITED, WEXITSTATUS, h0]
    · intro _; split <;> omega
    · intro c hc0 hc1 hc; split <;> omega
    · intro n hn0 hn1 hn; omega
    · intro h; omega
    · intro h; omega
    · intro h; exact absurd h0 h
  · by_cases hs : ws % 128 ≤ 126
    · refine ⟨128 + ws % 128, ?_, ?_, ?_, ?_, ?_, ?_, ?_⟩
      · have hsig : to_signed_char (ws % 128 + 1) / 2 > 0 := by
          unfold to_signed_char; split <;> omega
        simp [launch_processus, hext, hfg, hclock, hfork, hnp, hnz, hwait, hnw, hclock2,
          WIFEXITED, WIFSIGNALED, WTERMSIG, h0, hsig]
      · intro h; exact absurd h h0
      · intro c hc0 hc1 hc; omega
      · intro n hn0 hn1 hn; omega
      · intro _ _; rfl
      · intro h; omega
      · intro _
        refine ⟨fun h => h0 h.1, ?_⟩
        intro node
        cases hf : node.on_failure_next <;> simp [next_node, WIFEXITED, h0, hf]
    · refine ⟨-1, ?_, ?_, ?_, ?_, ?_, ?_, ?_⟩
      · have hsig : ¬ to_signed_char (ws % 128 + 1) / 2 > 0 := by
          unfold to_signed_char; split <;> omega
        simp [launch_processus, hext, hfg, hclock, hfork, hnp, hnz, hwait, hnw, hclock2,
          WIFEXITED, WIFSIGNALED, h0, hsig]
      · intro h; exact absurd h h0
      · intro c hc0 hc1 hc; omega
      · intro n hn0 hn1 hn; omega
      · intro _ h; exact absurd h hs
      · intro _; rfl
      · intro _
        refine ⟨fun h => h0 h.1, ?_⟩
        intro node
        cases hf : node.on_failure_next <;> simp [next_node, WIFEXITED, h0, hf]

/-- C3 on an example: a foreground external process killed by signal 9 has raw
status 9 and `launch_processus` returns 137. -/
theorem foreground_external_normalized_status_witness :
    ∃ r, launch_processus simLibc (simWorld [9]) none false_proc =
        .returned { simWorld [] with forked := 1 }
          ({ false_proc with pid := 100, status := 9 }, r) ∧
      r = 137 := by
  obtain ⟨r, h, _, _, h9, _⟩ :=
    foreground_external_normalized_status simLibc (simWorld [9]) (simWorld [9])
      { simWorld [9] with forked := 1 } { simWorld [] with forked := 1 }
      { simWorld [] with forked := 1 } ⟨0, 0⟩ ⟨0, 0⟩ 100 100 9 none false_proc
      (by decide) (by decide) (by decide) (by decide) (by decide) (by decide) (by decide)
      (by decide)
  exact ⟨r, h, h9 9 (by decide) (by decide) (Or.inl rfl)⟩

/-- C2: when the launch of a visited node returns a non-negative value, the
loop goes on from the on-success edge if the raw status is a clean exit with
code 0 and that edge is present, otherwise from the on-failure edge if the
process failed and that edge is present, otherwise from the unconditional edge.
A node with only an on-success edge whose process did not exit cleanly with 0
ends the traversal, and a failing node with both an on-failure and an
unconditional edge goes to the on-failure target. -/
theorem next_node_selection {W : Type} (os : Libc W) (w w1 : W) (cmdl : command_line_t)
    (j p : Nat) (node : control_flow_t) (proc proc1 : processus_t) (r : Int)
    (fuel : Nat) (seen : List Nat)
    (hnode : cmdl.flow[j]? = some node) (hp : node.proc = some p)
    (hproc : cmdl.commands[p]? = some proc)
    (hl : launch_processus os w (tracked_of cmdl proc) proc = .returned w1 (proc1, r))
    (hr : 0 ≤ r) :
    launch_nodes os (fuel + 1) w cmdl (some j) seen =
      launch_nodes os fuel w1 { cmdl with commands := cmdl.commands.set p proc1 }
        (selected_edge node proc1.status) (seen ++ [j]) ∧
    (clean_exit_zero proc1.status → node.on_success_next ≠ none →
      selected_edge node proc1.status = node.on_success_next) ∧
    (¬ clean_exit_zero proc1.status → node.on_failure_next ≠ none →
      selected_edge node proc1.status = node.on_failure_next) ∧
    (clean_exit_zero proc1.status → node.on_success_next = none →
      selected_edge node proc1.status = node.unconditionnal_next) ∧
    (¬ clean_exit_zero proc1.status → node.on_failure_next = none →
      selected_edge node proc1.status = node.unconditionnal_next) ∧
    (¬ clean_exit_zero proc1.status → node.on_failure_next = none →
      node.unconditionnal_next = none →
      launch_nodes os (fuel + 2) w cmdl (some j) seen =
        some (.returned w1
          ({ cmdl with commands := cmdl.commands.set p proc1 }, none, seen ++ [j]))) ∧
    (∀ a b, ¬ clean_exit_zero proc1.status → node.on_failure_next = some a →
      node.unconditionnal_next = some b →
      launch_nodes os (fuel + 1) w cmdl (some j) seen =
        launch_nodes os fuel w1 { cmdl with commands := cmdl.commands.set p proc1 }
          (some a) (seen ++ [j])) := by
  have hnr : ¬ r < 0 := by omega
  have hstep : ∀ n, launch_nodes os (n + 1) w cmdl (some j) seen =
      launch_nodes os n w1 { cmdl with commands := cmdl.commands.set p proc1 }
        (selected_edge node proc1.status) (seen ++ [j]) := by
    intro n
    simp [launch_nodes, hnode, hp, hproc, hl, hnr, next_node_eq_selected_edge]
  refine ⟨hstep fuel, ?_, ?_, ?_, ?_, ?_, ?_⟩
  · intro hc hs; simp [selected_edge, hc, hs]
  · intro hc hf; simp [selected_edge, hc, hf]
  · intro hc hs; simp [selected_edge, hc, hs]
  · intro hc hf; simp [selected_edge, hc, hf]
  · intro hc hf hu
    rw [hstep (fuel + 1)]
    simp [selected_edge, hc, hf, hu, launch_nodes]
  · intro a b hc hf hu
    rw [hstep fuel]
    simp [selected_edge, hc, hf]

/-- C2 on the line `false && echo ok`: `false` exits with code 1 (raw status
256), its node has only an on-success edge, and the traversal ends there. -/
theorem next_node_selection_witness :
    launch_nodes simLibc 2 (simWorld [256]) false_and_echo (some 0) [] =
      some (.returned { simWorld [] with forked := 1 }
        ({ false_and_echo with
            commands := false_and_echo.commands.set 0
              { false_proc with pid := 100, status := 256 } }, none, [0])) :=
  (next_node_selection simLibc (simWorld [256]) { simWorld [] with forked := 1 }
    false_and_echo 0 0
    { proc := some 0, unconditionnal_next := none, on_success_next := some 1,
      on_failure_next := none, cmdl := true }
    false_proc { false_proc with pid := 100, status := 256 } 1 0 []
    (by decide) (by decide) (by decide) (by decide) (by decide)).2.2.2.2.2.1
    (by decide) (by decide) (by decide)

/-- C4: from an initialized command line, `MAX_CMDS` calls of `add_processus`
with any modes all succeed (call number i returns slot i) and leave
`num_commands = MAX_CMDS`; every further call returns the empty result and
leaves the whole command line as it was. -/
theorem add_processus_capacity (L : Limits) (modes : List control_flow_mode_t)
    (hlen : modes.length = L.MAX_CMDS) :
    (add_each L (init_command_line L).1 modes).2 = (List.range L.MAX_CMDS).map some ∧
    (∀ r ∈ (add_each L (init_command_line L).1 modes).2, r ≠ none) ∧
    (add_each L (init_command_line L).1 modes).1.num_commands = L.MAX_CMDS ∧
    (∀ m, add_processus L (add_each L (init_command_line L).1 modes).1 m =
      ((add_each L (init_command_line L).1 modes).1, none)) ∧
    (∀ more, add_each L (add_each L (init_command_line L).1 modes).1 more =
      ((add_each L (init_command_line L).1 modes).1, List.replicate more.length none)) := by
  have h0 : (init_command_line L).1.num_commands = 0 := rfl
  obtain ⟨hres, hnum⟩ := add_each_results L modes (init_command_line L).1
    (by rw [h0, hlen]; omega)
  rw [h0, hlen] at hres
  rw [h0, hlen, Nat.zero_add] at hnum
  have hres2 : (add_each L (init_command_line L).1 modes).2 =
      (List.range L.MAX_CMDS).map some := by
    rw [hres, List.range_eq_range']
  refine ⟨hres2, ?_, hnum, ?_, ?_⟩
  · intro r hr
    rw [hres2] at hr
    obtain ⟨i, -, hi⟩ := List.mem_map.mp hr
    rw [← hi]
    exact Option.some_ne_none i
  · intro m
    exact add_processus_full L _ m (by rw [hnum])
  · intro more
    exact add_each_full L more _ (by rw [hnum])

/-- C4 with `MAX_CMDS = 3`: three appends return slots 0, 1, 2 and a fourth
returns the empty result. -/
theorem add_processus_capacity_witness :
    (add_each simLimits (init_command_line simLimits).1
      [.UNCONDITIONAL, .ON_SUCCESS, .ON_FAILURE]).2 = [some 0, some 1, some 2] ∧
    (add_each simLimits (init_command_line simLimits).1
      [.UNCONDITIONAL, .ON_SUCCESS, .ON_FAILURE, .UNCONDITIONAL]).2 =
      [some 0, some 1, some 2, none] :=
  ⟨(add_processus_capacity simLimits [.UNCONDITIONAL, .ON_SUCCESS, .ON_FAILURE] rfl).1,
    by decide⟩

/-- C5 (as stated, refuted): after the first append the new slot `commands[0]`
is not the default descriptor, because its back-reference `cf` is set. -/
theorem add_processus_slot_not_default :
    (add_processus simLimits (init_command_line simLimits).1 .UNCONDITIONAL).1.commands[0]? ≠
        some (init_processus simLimits).1 ∧
    (add_processus simLimits (init_command_line simLimits).1 .UNCONDITIONAL).1.commands[0]? =
        some { (init_processus simLimits).1 with cf := some 0 } := by
  decide

/-- C5 (amended): with `num_commands = k < MAX_CMDS`, `add_processus` returns
slot k, sets `num_commands` to k+1, resets `commands[k]` to the default
descriptor except for its back-reference `cf`, which refers to `flow[k]`, sets
`flow[k].proc` to `commands[k]` with the three edges of `flow[k]` empty, and,
when k > 0, sets the edge of `flow[k-1]` selected by the mode to `flow[k]` and
leaves its other fields unchanged; every other slot of `commands` and `flow`
and the descriptor set are unchanged. Consequently `flow[i].proc` refers to
`commands[i]` for every `i < num_commands` after any sequence of appends to an
initialized command line. -/
theorem add_processus_appends (L : Limits) (cmdl : command_line_t) (m : control_flow_mode_t)
    (hc : cmdl.commands.length = L.MAX_CMDS) (hf : cmdl.flow.length = L.MAX_CMDS)
    (hk : cmdl.num_commands < L.MAX_CMDS) :
    (add_processus L cmdl m).2 = some cmdl.num_commands ∧
    (add_processus L cmdl m).1.num_commands = cmdl.num_commands + 1 ∧
    (add_processus L cmdl m).1.commands[cmdl.num_commands]? =
      some { (init_processus L).1 with cf := some cmdl.num_commands } ∧
    (add_processus L cmdl m).1.flow[cmdl.num_commands]? =
      some { proc := some cmdl.num_commands, unconditionnal_next := none,
             on_success_next := none, on_failure_next := none, cmdl := true } ∧
    (0 < cmdl.num_commands → ∃ prev new,
      cmdl.flow[cmdl.num_commands - 1]? = some prev ∧
      (add_processus L cmdl m).1.flow[cmdl.num_commands - 1]? = some new ∧
      new.proc = prev.proc ∧ new.cmdl = prev.cmdl ∧
      (m = .UNCONDITIONAL → new.unconditionnal_next = some cmdl.num_commands ∧
        new.on_success_next = prev.on_success_next ∧
        new.on_failure_next = prev.on_failure_next) ∧
      (m = .ON_SUCCESS → new.on_success_next = some cmdl.num_commands ∧
        new.unconditionnal_next = prev.unconditionnal_next ∧
        new.on_failure_next = prev.on_failure_next) ∧
      (m = .ON_FAILURE → new.on_failure_next = some cmdl.num_commands ∧
        new.unconditionnal_next = prev.unconditionnal_next ∧
        new.on_success_next = prev.on_success_next)) ∧
    (∀ i : Nat, i ≠ cmdl.num_commands →
      (add_processus L cmdl m).1.commands[i]? = cmdl.commands[i]?) ∧
    (∀ i : Nat, i ≠ cmdl.num_commands → i + 1 ≠ cmdl.num_commands →
      (add_processus L cmdl m).1.flow[i]? = cmdl.flow[i]?) ∧
    (add_processus L cmdl m).1.opened_descriptors = cmdl.opened_descriptors ∧
    (proc_aliases cmdl → proc_aliases (add_processus L cmdl m).1) ∧
    (∀ modes, proc_aliases (add_each L (init_command_line L).1 modes).1) := by
  obtain ⟨h2, hn, hod, -⟩ := add_processus_result L cmdl m hk
  have hck : cmdl.commands[cmdl.num_commands]? = some cmdl.commands[cmdl.num_commands] :=
    List.getElem?_eq_getElem (by omega)
  have hfk : cmdl.flow[cmdl.num_commands]? = some cmdl.flow[cmdl.num_commands] :=
    List.getElem?_eq_getElem (by omega)
  refine ⟨h2, hn, ?_, ?_, ?_, ?_, ?_, hod, ?_, ?_⟩
  · rw [add_processus_commands L cmdl m hk, if_pos rfl, hck]; rfl
  · rw [add_processus_flow L cmdl m hk, if_pos rfl, hfk]; rfl
  · intro h0
    have hlt : cmdl.num_commands - 1 < cmdl.flow.length := by omega
    refine ⟨cmdl.flow[cmdl.num_commands - 1],
      set_edge m (some cmdl.num_commands) cmdl.flow[cmdl.num_commands - 1],
      List.getElem?_eq_getElem hlt, ?_, ?_⟩
    · rw [add_processus_flow L cmdl m hk, if_neg (by omega), if_pos (by omega),
        List.getElem?_eq_getElem hlt]
      rfl
    · cases m <;> simp [set_edge]
  · intro i hi
    rw [add_processus_commands L cmdl m hk, if_neg hi]
  · intro i hi hi2
    rw [add_processus_flow L cmdl m hk, if_neg hi, if_neg hi2]
  · exact proc_aliases_add_processus L cmdl m hf
  · intro modes
    apply proc_aliases_add_each L modes _ (by simp [init_command_line])
    intro i hi
    exact absurd hi (Nat.not_lt_zero i)

/-- C5 (amended) on an example: the second append, in mode ON_FAILURE, returns
slot 1 and writes only the on-failure edge of `flow[0]`. -/
theorem add_processus_appends_witness :
    (add_processus simLimits
      (add_processus simLimits (init_command_line simLimits).1 .UNCONDITIONAL).1
      .ON_FAILURE).2 = some 1 ∧
    (add_processus simLimits
      (add_processus simLimits (init_command_line simLimits).1 .UNCONDITIONAL).1
      .ON_FAILURE).1.flow[0]? =
      some { proc := some 0, unconditionnal_next := none, on_success_next := none,
             on_failure_next := some 1, cmdl := true } :=
  ⟨(add_processus_appends simLimits
      (add_processus simLimits (init_command_line simLimits).1 .UNCONDITIONAL).1
      .ON_FAILURE (by decide) (by decide) (by decide)).1,
    by decide⟩

/-- C6: `add_fd` returns 0 exactly when `fd >= 0` and some slot of
`opened_descriptors` holds the sentinel -1; then the lowest-index empty slot
holds `fd` and every other slot is unchanged; otherwise it returns -1 and the
command line is unchanged. -/
theorem add_fd_first_empty_slot (cmdl : command_line_t) (fd : Int)
    (hlen : cmdl.opened_descriptors.length = MAX_FDS) :
    ((add_fd cmdl fd).2 = 0 ↔
      0 ≤ fd ∧ ∃ i : Nat, cmdl.opened_descriptors[i]? = some (-1)) ∧
    ((add_fd cmdl fd).2 = 0 → ∃ k : Nat,
      cmdl.opened_descriptors[k]? = some (-1) ∧
      (∀ j, j < k → cmdl.opened_descriptors[j]? ≠ some (-1)) ∧
      (add_fd cmdl fd).1 =
        { cmdl with opened_descriptors := cmdl.opened_descriptors.set k fd } ∧
      (add_fd cmdl fd).1.opened_descriptors[k]? = some fd ∧
      (∀ j, j ≠ k →
        (add_fd cmdl fd).1.opened_descriptors[j]? = cmdl.opened_descriptors[j]?)) ∧
    ((add_fd cmdl fd).2 ≠ 0 → (add_fd cmdl fd).2 = -1 ∧ (add_fd cmdl fd).1 = cmdl) := by
  rcases add_fd_cases cmdl fd with ⟨he, hwhy⟩ | ⟨hfd, k, hempty, hfirst, he⟩
  · rw [he]
    refine ⟨?_, ?_, ?_⟩
    · constructor
      · intro h; simp at h
      · rintro ⟨hfd, i, hi⟩
        rcases hwhy with hneg | hnone
        · omega
        · have hlt : i < cmdl.opened_descriptors.length := (List.getElem?_eq_some.mp hi).1
          exact absurd hi (hnone i (by omega))
    · intro h; simp at h
    · intro _; exact ⟨rfl, rfl⟩
  · have hlt : k < cmdl.opened_descriptors.length := (List.getElem?_eq_some.mp hempty).1
    rw [he]
    refine ⟨?_, ?_, ?_⟩
    · constructor
      · intro _; exact ⟨hfd, k, hempty⟩
      · intro _; rfl
    · intro _
      refine ⟨k, hempty, hfirst, rfl, ?_, ?_⟩
      · show (cmdl.opened_descriptors.set k fd)[k]? = some fd
        rw [List.getElem?_set, if_pos rfl, if_pos hlt]
      · intro j hj
        show (cmdl.opened_descriptors.set k fd)[j]? = cmdl.opened_descriptors[j]?
        rw [List.getElem?_set, if_neg (fun e => hj e.symm)]
    · intro h; exact absurd rfl h

/-- C6 on examples: on a fresh set `add_fd 7` fills slot 0, and a negative
descriptor is refused without any change. -/
theorem add_fd_first_empty_slot_witness :
    (add_fd (init_command_line simLimits).1 7).2 = 0 ∧
    (add_fd (init_command_line simLimits).1 7).1.opened_descriptors[0]? = some 7 ∧
    add_fd (init_command_line simLimits).1 (-3) = ((init_command_line simLimits).1, -1) :=
  ⟨(add_fd_first_empty_slot (init_command_line simLimits).1 7 (by decide)).1.2
      ⟨by decide, 0, by decide⟩,
    by decide, by decide⟩

/-- C7 (as stated, refuted): on the set obtained from an initialized command
line by registering descriptor 3 twice, `close_fds` closes the number 3 two
times, not one. -/
theorem close_fds_closes_duplicate_twice :
    twice_three = (add_fd (add_fd (init_command_line simLimits).1 3).1 3).1 ∧
    (close_fds simLibc (simWorld []) twice_three).1.closed = [3, 3] ∧
    ¬ (close_fds simLibc (simWorld []) twice_three).1.closed.count 3 = 1 := by
  decide

/-- C7 (amended): on a command line whose slots hold a descriptor number or the
sentinel, `close_fds` returns 0, calls `close` once for each occupied slot, in
slot order (so each descriptor number is closed one time when no two slots hold
the same number, and as many times as slots hold it otherwise), and leaves
every slot at the sentinel; a second call right after closes nothing, changes
nothing and returns 0. -/
theorem close_fds_one_close_per_slot {W : Type} (os : Libc W) (w : W)
    (cmdl : command_line_t)
    (hlen : cmdl.opened_descriptors.length = MAX_FDS)
    (hslots : ∀ fd ∈ cmdl.opened_descriptors, -1 ≤ fd) :
    close_fds os w cmdl =
      ((occupied cmdl.opened_descriptors).foldl os.close w,
        { cmdl with opened_descriptors := List.replicate MAX_FDS (-1) }, 0) ∧
    (∀ fd, 0 ≤ fd →
      (occupied cmdl.opened_descriptors).count fd = cmdl.opened_descriptors.count fd) ∧
    ((occupied cmdl.opened_descriptors).Nodup →
      ∀ fd ∈ occupied cmdl.opened_descriptors,
        (occupied cmdl.opened_descriptors).count fd = 1) ∧
    close_fds os (close_fds os w cmdl).1 (close_fds os w cmdl).2.1 =
      ((close_fds os w cmdl).1, (close_fds os w cmdl).2.1, 0) := by
  have h1 := close_fds_eq os w cmdl hlen
  have hrep := map_cleared_eq_replicate cmdl.opened_descriptors hslots
  rw [hlen] at hrep
  refine ⟨by rw [h1, hrep], ?_, ?_, ?_⟩
  · intro fd hfd
    unfold occupied
    exact List.count_filter (by simpa using hfd)
  · intro hnd fd hmem
    exact List.count_eq_one_of_mem hnd hmem
  · rw [h1]
    have h2 := close_fds_eq os ((occupied cmdl.opened_descriptors).foldl os.close w)
      { cmdl with opened_descriptors := cmdl.opened_descriptors.map cleared }
      (by simp [hlen])
    rw [h2]
    simp only [occupied_map_cleared, List.foldl_nil, map_cleared_map_cleared]

set_option maxRecDepth 20000 in
/-- C7 (amended) after `MAX_FDS` registrations, of descriptors 3 to 34: all of
them are closed, in slot order, and the set is empty afterwards. -/
theorem close_fds_one_close_per_slot_witness :
    (close_fds simLibc (simWorld []) full_set).1.closed =
      (List.range MAX_FDS).map (fun i => (i : Int) + 3) ∧
    (close_fds simLibc (simWorld []) full_set).2.1.opened_descriptors =
      List.replicate MAX_FDS (-1) ∧
    (close_fds simLibc (simWorld []) full_set).2.2 = 0 := by
  have h := (close_fds_one_close_per_slot simLibc (simWorld []) full_set
    (by decide) (by decide)).1
  rw [h]
  exact ⟨by decide, rfl, rfl⟩

/-- C8 (as stated, refuted): registering descriptor 3 twice on an initialized
command line leaves it in slot 0 and in slot 1. -/
theorem duplicate_after_registering_twice :
    ¬ no_duplicate
      (run_fd_calls simLibc (simWorld []) (init_command_line simLimits).1
        [.add 3, .add 3]).2.opened_descriptors :=
  fun h => absurd (h 0 1 3 (by decide) (by decide) (by decide)) (by decide)

/-- C8 (amended): in every command line reached from `init_command_line` by
calls of `add_fd` and `close_fds` in which no call registers a number that the
set holds at that moment, no two occupied slots hold the same descriptor
number. -/
theorem no_duplicate_when_registered_fresh {W : Type} (os : Libc W) (L : Limits) (w : W)
    (calls : List fd_call)
    (hfresh : registers_fresh os w (init_command_line L).1 calls) :
    no_duplicate (run_fd_calls os w (init_command_line L).1 calls).2.opened_descriptors := by
  apply no_duplicate_run_fd_calls os calls w _ _ _ hfresh
  · simp [init_command_line]
  · intro i j a ha hi _
    have hmem : a ∈ (init_command_line L).1.opened_descriptors :=
      List.mem_iff_getElem?.mpr ⟨i, hi⟩
    simp only [init_command_line, List.mem_replicate] at hmem
    omega

/-- C8 (amended) on an example: descriptor 3 may be registered again once
`close_fds` has emptied the set, and a refused call with a negative number in
between is allowed. -/
theorem no_duplicate_when_registered_fresh_witness :
    registers_fresh simLibc (simWorld []) (init_command_line simLimits).1
      [.add 3, .add (-1), .add 4, .close_all, .add 3] ∧
    no_duplicate
      (run_fd_calls simLibc (simWorld []) (init_command_line simLimits).1
        [.add 3, .add (-1), .add 4, .close_all, .add 3]).2.opened_descriptors :=
  ⟨by decide,
    no_duplicate_when_registered_fresh simLibc simLimits (simWorld [])
      [.add 3, .add (-1), .add 4, .close_all, .add 3] (by decide)⟩

/-- C9: the result of `launch_command_line` follows the way the traversal
ends. With `num_commands = 0` it returns 0 and leaves the world and the command
line as they were. When the launch of a node returns a negative value `r`, the
loop ends at that node and the function returns `r` in the world left by that
launch, with `opened_descriptors` unchanged. When the loop ends on an absent
node or a node without process, the function returns 0, the occupied slots are
closed and every slot holds the sentinel. On a command line whose edges lead
forward, a bound of `flow.length + 1` rounds is enough for a result. -/
theorem launch_command_line_outcomes {W : Type} (os : Libc W) (w : W)
    (cmdl : command_line_t)
    (hlen : cmdl.opened_descriptors.length = MAX_FDS)
    (hslots : ∀ fd ∈ cmdl.opened_descriptors, -1 ≤ fd) :
    (cmdl.num_commands = 0 →
      ∀ fuel, launch_command_line os fuel w cmdl = some (.returned w (cmdl, 0, []))) ∧
    (cmdl.num_commands ≠ 0 → ∀ fuel,
      (∀ w1 cmdl1 r seen,
        launch_nodes os fuel w cmdl (some 0) [] = some (.returned w1 (cmdl1, some r, seen)) →
        r < 0 ∧
        launch_command_line os fuel w cmdl = some (.returned w1 (cmdl1, r, seen)) ∧
        cmdl1.opened_descriptors = cmdl.opened_descriptors) ∧
      (∀ w1 cmdl1 seen,
        launch_nodes os fuel w cmdl (some 0) [] = some (.returned w1 (cmdl1, none, seen)) →
        launch_command_line os fuel w cmdl =
          some (.returned ((occupied cmdl.opened_descriptors).foldl os.close w1)
            ({ cmdl1 with opened_descriptors := List.replicate MAX_FDS (-1) }, 0, seen)))) ∧
    (∀ fuel j node p proc w0 w1 proc1 r seen,
      cmdl.flow[j]? = some node → node.proc = some p → cmdl.commands[p]? = some proc →
      launch_processus os w0 (tracked_of cmdl proc) proc = .returned w1 (proc1, r) → r < 0 →
      launch_nodes os (fuel + 1) w0 cmdl (some j) seen =
        some (.returned w1
          ({ cmdl with commands := cmdl.commands.set p proc1 }, some r, seen ++ [j]))) ∧
    (forward_linked cmdl = true → 0 < cmdl.flow.length →
      ∃ res, launch_command_line os (cmdl.flow.length + 1) w cmdl = some res) := by
  refine ⟨?_, ?_, ?_, ?_⟩
  · intro h0 fuel
    simp [launch_command_line, h0]
  · intro hne fuel
    constructor
    · intro w1 cmdl1 r seen h
      obtain ⟨hod, -, -, hr⟩ := launch_nodes_returned os fuel w cmdl (some 0) [] w1 cmdl1
        (some r) seen h
      exact ⟨hr r rfl, by simp [launch_command_line, hne, h], hod⟩
    · intro w1 cmdl1 seen h
      obtain ⟨hod, -, -, -⟩ := launch_nodes_returned os fuel w cmdl (some 0) [] w1 cmdl1
        none seen h
      have hc := close_fds_eq os w1 cmdl1 (by rw [hod]; exact hlen)
      have hrep := map_cleared_eq_replicate cmdl.opened_descriptors hslots
      rw [hlen] at hrep
      simp only [launch_command_line, hne, if_false, h, hc, hod, hrep]
  · intro fuel j node p proc w0 w1 proc1 r seen hnode hp hproc hl hr
    simp [launch_nodes, hnode, hp, hproc, hl, hr]
  · intro hfl hpos
    apply Option.isSome_iff_exists.mp
    by_cases h0 : cmdl.num_commands = 0
    · simp [launch_command_line, h0]
    · have htot := launch_nodes_total os (cmdl.flow.length + 1) w cmdl (some 0) [] hfl
        (by omega) (by intro j hj; injection hj with hj; subst hj; omega)
      obtain ⟨res, hres⟩ := Option.isSome_iff_exists.mp htot
      cases res with
      | returned w1 out =>
        obtain ⟨cmdl1, x, seen⟩ := out
        cases x with
        | none => simp [launch_command_line, h0, hres]
        | some r => simp [launch_command_line, h0, hres]
      | exited w1 code => simp [launch_command_line, h0, hres]
      | replaced w1 => simp [launch_command_line, h0, hres]

/-- C9 on the line `false && echo ok` with descriptor 5 tracked: `false` exits
with code 1, the traversal ends on the absent edge, and `launch_command_line`
returns 0 after closing descriptor 5. -/
theorem launch_command_line_outcomes_witness :
    launch_command_line simLibc 3 (simWorld [256]) false_and_echo_fd =
      some (.returned
        ((occupied false_and_echo_fd.opened_descriptors).foldl simLibc.close
          { simWorld [] with forked := 1 })
        ({ false_and_echo_fd with
            commands := false_and_echo_fd.commands.set 0
              { false_proc with pid := 100, status := 256 },
            opened_descriptors := List.replicate MAX_FDS (-1) }, 0, [0])) ∧
    ((occupied false_and_echo_fd.opened_descriptors).foldl simLibc.close
      { simWorld [] with forked := 1 }).closed = [5] ∧
    forward_linked false_and_echo_fd = true :=
  ⟨((launch_command_line_outcomes simLibc (simWorld [256]) false_and_echo_fd
      (by decide) (by decide)).2.1 (by decide) 3).2 { simWorld [] with forked := 1 }
      { false_and_echo_fd with
          commands := false_and_echo_fd.commands.set 0
            { false_proc with pid := 100, status := 256 } } [0] (by decide),
    by decide, by decide⟩

/-- C11 (as stated, refuted): with `argv[1] = "300"`, a string of decimal
digits, `builtin_exit` calls `exit(300)` and the process ends with status 44,
not 300; with `"256"` it ends with status 0; with `"4294967296"` the argument
of `exit` itself is 0, the `int` that `atoi` returns. -/
theorem builtin_exit_large_code_not_denoted :
    "4294967296".data.all Char.isDigit = true ∧
    digits_value "4294967296".data = 4294967296 ∧
    builtin_exit simLibc (simWorld []) (exit_proc (some "4294967296")) =
      .exited (simWorld []) 0 ∧
    builtin_exit simLibc (simWorld []) (exit_proc (some "4294967296")) ≠
      .exited (simWorld []) 4294967296 ∧
    "300".data.all Char.isDigit = true ∧
    digits_value "300".data = 300 ∧
    builtin_exit simLibc (simWorld []) (exit_proc (some "300")) = .exited (simWorld []) 300 ∧
    exit_status 300 = 44 ∧
    builtin_exit simLibc (simWorld []) (exit_proc (some "256")) = .exited (simWorld []) 256 ∧
    exit_status 256 = 0 := by
  decide

/-- C11 (amended): if `argv[1]` is absent `builtin_exit` ends the process with
status 0; if `argv[1]` consists only of decimal digits and the number it
denotes is at most 255, the process ends with that number as its status (12
for `12`, 0 for the empty string); for a larger number up to 2147483647 `exit`
is called with that number and the process ends with its remainder modulo 256;
if `argv[1]` contains a character that is not a decimal digit, the process is
not terminated, exactly the line `exit: numeric argument required` is written
to `stderr_fd`, and -1 is returned with the descriptor unchanged. -/
theorem builtin_exit_outcomes {W : Type} (os : Libc W) (w : W) (cmd : processus_t) :
    (argv_at cmd 1 = none →
      builtin_exit os w cmd = .exited w 0 ∧ exit_status 0 = 0) ∧
    (∀ a, argv_at cmd 1 = some a → a.data.all Char.isDigit = true →
      digits_value a.data ≤ 255 →
      builtin_exit os w cmd = .exited w (digits_value a.data) ∧
      exit_status (digits_value a.data) = digits_value a.data) ∧
    (∀ a n, argv_at cmd 1 = some a → a.toNat? = some n → n ≤ 255 →
      builtin_exit os w cmd = .exited w n ∧ exit_status n = n) ∧
    (argv_at cmd 1 = some "" →
      builtin_exit os w cmd = .exited w 0 ∧ exit_status 0 = 0) ∧
    (∀ a, argv_at cmd 1 = some a → a.data.all Char.isDigit = true →
      digits_value a.data ≤ 2147483647 →
      builtin_exit os w cmd = .exited w (digits_value a.data) ∧
      exit_status (digits_value a.data) = (digits_value a.data : Int) % 256) ∧
    (∀ a, argv_at cmd 1 = some a → (∃ c ∈ a.data, c.isDigit = false) →
      builtin_exit os w cmd =
        .returned (os.dprintf w cmd.stderr_fd "exit: numeric argument required\n")
          (cmd, -1)) := by
  have hdig : ∀ a, argv_at cmd 1 = some a → a.data.all Char.isDigit = true →
      digits_value a.data ≤ 2147483647 →
      builtin_exit os w cmd = .exited w (digits_value a.data) := by
    intro a harg hall hle
    rw [builtin_exit_digits os w cmd a harg hall, atoi_of_le a hle]
  have hsmall : ∀ a, argv_at cmd 1 = some a → a.data.all Char.isDigit = true →
      digits_value a.data ≤ 255 →
      builtin_exit os w cmd = .exited w (digits_value a.data) ∧
      exit_status (digits_value a.data) = digits_value a.data := by
    intro a harg hall hle
    refine ⟨hdig a harg hall (by omega), ?_⟩
    unfold exit_status
    omega
  refine ⟨?_, hsmall, ?_, ?_, ?_, ?_⟩
  · intro h
    exact ⟨by simp [builtin_exit, h], rfl⟩
  · intro a n harg hn hle
    obtain ⟨hv, hall⟩ := toNat?_digits_value a n hn
    rw [← hv] at hle ⊢
    exact hsmall a harg hall hle
  · intro harg
    exact hsmall "" harg rfl (by decide)
  · intro a harg hall hle
    exact ⟨hdig a harg hall hle, rfl⟩
  · intro a harg hbad
    exact builtin_exit_not_digits os w cmd a harg hbad

/-- C11 (amended) on examples: `exit 12` ends the process with status 12;
`exit 12a` and `exit -5` write the message to descriptor 2 and return -1;
`exit` alone ends the process with status 0. -/
theorem builtin_exit_outcomes_witness :
    (builtin_exit simLibc (simWorld []) (exit_proc (some "12")) = .exited (simWorld []) 12 ∧
      exit_status 12 = 12) ∧
    builtin_exit simLibc (simWorld []) (exit_proc (some "12a")) =
      .returned { simWorld [] with written := [(2, "exit: numeric argument required\n")] }
        (exit_proc (some "12a"), -1) ∧
    builtin_exit simLibc (simWorld []) (exit_proc (some "-5")) =
      .returned { simWorld [] with written := [(2, "exit: numeric argument required\n")] }
        (exit_proc (some "-5"), -1) ∧
    (builtin_exit simLibc (simWorld []) (exit_proc none) = .exited (simWorld []) 0 ∧
      exit_status 0 = 0) :=
  ⟨(builtin_exit_outcomes simLibc (simWorld []) (exit_proc (some "12"))).2.1 "12"
      (by decide) (by decide) (by decide),
    (builtin_exit_outcomes simLibc (simWorld []) (exit_proc (some "12a"))).2.2.2.2.2 "12a"
      (by decide) ⟨'a', by decide, by decide⟩,
    (builtin_exit_outcomes simLibc (simWorld []) (exit_proc (some "-5"))).2.2.2.2.2 "-5"
      (by decide) ⟨'-', by decide, by decide⟩,
    (builtin_exit_outcomes simLibc (simWorld []) (exit_proc none)).1 (by decide)⟩

/-- C12: in a command line whose nodes and count are those built by
`init_command_line` followed by any sequence of `add_processus` calls (the
descriptors may have been filled in since), each node `flow[i]` has at most one
non-empty edge and that edge points to `flow[i+1]`; `launch_command_line`
then goes from a node only to the next slot or stops, returns a result within
`num_commands + 1` rounds for every behaviour of the system, and the nodes
it has launched when it returns are `0, 1, .., k-1` for some
`k <= num_commands`: increasing order from `flow[0]`, each process at most
once, at most `num_commands` launches. -/
theorem built_line_runs_in_order (L : Limits) (modes : List control_flow_mode_t)
    (cmdl : command_line_t)
    (hflow : cmdl.flow = (add_each L (init_command_line L).1 modes).1.flow)
    (hnum : cmdl.num_commands = (add_each L (init_command_line L).1 modes).1.num_commands)
    (hcmds : cmdl.commands.length = L.MAX_CMDS) :
    (∀ (i : Nat) (node : control_flow_t), cmdl.flow[i]? = some node →
      ((edges_of node).filter Option.isSome).length ≤ 1 ∧
      (∀ k, some k ∈ edges_of node → k = i + 1 ∧ k < cmdl.num_commands) ∧
      (i < cmdl.num_commands → node.proc = some i) ∧
      (∀ status, next_node node status = none ∨ next_node node status = some (i + 1))) ∧
    (∀ (W : Type) (os : Libc W) (w : W),
      ∃ res, launch_command_line os (cmdl.num_commands + 1) w cmdl = some res) ∧
    (∀ (W : Type) (os : Libc W) (fuel : Nat) (w w1 : W) (cmdl1 : command_line_t) (r : Int)
      (seen : List Nat),
      launch_command_line os fuel w cmdl = some (.returned w1 (cmdl1, r, seen)) →
      ∃ k, k ≤ cmdl.num_commands ∧ seen = List.range k ∧ seen.Pairwise (fun a b => a < b) ∧
        seen.Nodup ∧ seen.length ≤ cmdl.num_commands) := by
  obtain ⟨hmax, hbuilt⟩ := chain_line_add_each L modes (init_command_line L).1
    (by simp [init_command_line]) (by simp [init_command_line]) (chain_line_init L)
  have hline : chain_line cmdl := by
    obtain ⟨-, hfl, hshape⟩ := hbuilt
    refine ⟨by rw [hnum, hcmds]; exact hmax, by rw [hnum, hflow]; exact hfl, ?_⟩
    intro j node hnode
    rw [hflow] at hnode
    rw [hnum]
    exact hshape j node hnode
  refine ⟨?_, ?_, ?_⟩
  · intro i node hnode
    have hshape := hline.2.2 i node hnode
    obtain ⟨h1, h2⟩ := chain_shape_edges node i _ hshape
    refine ⟨h1, h2, hshape.1, ?_⟩
    intro status
    rcases chain_shape_next node i _ hshape status with e | ⟨e, -⟩
    · exact Or.inl e
    · exact Or.inr e
  · intro W os w
    exact Option.isSome_iff_exists.mp
      ((launch_command_line_chain os (cmdl.num_commands + 1) w cmdl hline).1
        (Nat.lt_succ_self _))
  · intro W os fuel w w1 cmdl1 r seen h
    obtain ⟨k, hk, hs⟩ := (launch_command_line_chain os fuel w cmdl hline).2 w1 cmdl1 r seen h
    refine ⟨k, hk, hs, ?_, ?_, ?_⟩
    · rw [hs]; exact List.pairwise_lt_range k
    · rw [hs]; exact List.nodup_range k
    · rw [hs, List.length_range]; exact hk

/-- C12 on the line `false && echo ok`, built by two appends: with `false`
exiting 0 and `echo` exiting 0 the nodes launched are 0 then 1, within three
rounds. -/
theorem built_line_runs_in_order_witness :
    (∃ res, launch_command_line simLibc (false_and_echo.num_commands + 1) (simWorld [0, 0])
      false_and_echo = some res) ∧
    launch_command_line simLibc 3 (simWorld [0, 0]) false_and_echo =
      some (.returned { simWorld [] with forked := 2 }
        ({ false_and_echo with
            commands := update_at (update_at false_and_echo.commands 0
              (fun proc => { proc with pid := 100 })) 1
              (fun proc => { proc with pid := 101 }) }, 0, [0, 1])) :=
  ⟨(built_line_runs_in_order simLimits [.UNCONDITIONAL, .ON_SUCCESS] false_and_echo
      (by decide) (by decide) (by decide)).2.1 SimWorld simLibc (simWorld [0, 0]),
    by decide⟩

end Minishell
